import Mathlib

/-!
Verification development for the Gmail Job Application Tracker extension.

The JavaScript source is embedded shallowly:
- strings are Lean `String`s, worked on through their character lists;
- JavaScript timestamps (ISO date strings compared through `new Date`) are
  modelled by their numeric time values (`Nat`) inside the pipeline, and by
  their ISO text inside the CSV manager, whose `Date` parsing is modelled for
  a UTC runtime;
- the network (Gmail fetch, AI backends) is modelled by explicit inputs: the
  fetched batch is a parameter, and each AI call site receives the outcome of
  that call (an `Except` of failure message or response payload) per attempt;
- `chrome.storage` is modelled as an explicit store record threaded through
  the handlers.
-/

deriving instance DecidableEq for Except

namespace JobTracker

/-! ## JavaScript string runtime primitives -/

/-- The whitespace class of JavaScript `String.prototype.trim`
    (space, tab, line terminators, NBSP, BOM). -/
def isJsWs (c : Char) : Bool :=
  c = ' ' || c = '\t' || c = '\n' || c = '\r' ||
  c = '\u000b' || c = '\u000c' || c = '\uFEFF' || c = '\u00A0'

def trimLeftC (l : List Char) : List Char := l.dropWhile isJsWs

def trimRightC (l : List Char) : List Char := (l.reverse.dropWhile isJsWs).reverse

def jsTrimC (l : List Char) : List Char := trimRightC (trimLeftC l)

/-- JavaScript `s.trim()`. -/
def jsTrim (s : String) : String := ⟨jsTrimC s.data⟩

/-- JavaScript `s.toLowerCase()`, restricted to the ASCII mapping. -/
def jsToLower (s : String) : String := ⟨s.data.map Char.toLower⟩

/-- Leading-match test: the first list is an initial segment of the second. -/
def listLead : List Char → List Char → Bool
  | [], _ => true
  | _ :: _, [] => false
  | a :: n, b :: h => a = b && listLead n h

/-- Substring occurrence test over character lists. -/
def hasSub (needle : List Char) : List Char → Bool
  | [] => listLead needle []
  | c :: t => listLead needle (c :: t) || hasSub needle t

/-- JavaScript `hay.includes(needle)`. -/
def strHasSub (needle hay : String) : Bool := hasSub needle.data hay.data

/-! ## AIProvider (src/src/ai-provider.js) -/

/-- Outcome of one `callAI` invocation for a categorization prompt:
    the response text, or the message of the error it threw. -/
abbrev CallOutcome := Except String String

/-- `AIProvider.categorizeEmail` answer check:
    `answer = response.toLowerCase().trim()`;
    `answer.includes('yes') || answer === 'true' || answer === '1'`. -/
def classifyAnswerTrue (response : String) : Bool :=
  let answer := jsTrim (jsToLower response)
  strHasSub "yes" answer || answer = "true" || answer = "1"

/-- `AIProvider.categorizeEmail`: on success parse the answer; on a thrown
    error rethrow it wrapped as `Failed to categorize email: <msg>`. -/
def providerCategorize (call : CallOutcome) : Except String Bool :=
  match call with
  | .ok r => .ok (classifyAnswerTrue r)
  | .error m => .error ("Failed to categorize email: " ++ m)

/-- The rate-limit test `EmailProcessor` applies to a caught error message:
    `error.message.includes('rate limit') || error.message.includes('429')`. -/
def rateLimitMsg (m : String) : Bool :=
  strHasSub "rate limit" m || strHasSub "429" m

/-- `cleanValue` inside `AIProvider.parseExtractionResponse`:
    `if (!val || val === 'null' || val === 'NULL' || val === 'None') return null;
     return val.trim();`
    A JSON `null` (or absent) field is `none`; a JSON string is `some`. -/
def cleanValue : Option String → Option String
  | none => none
  | some s =>
    if s = "" || s = "null" || s = "NULL" || s = "None" then none
    else some (jsTrim s)

/-- The fields of the JSON object located inside an extraction response
    (after `JSON.parse`); `application_date` is whatever date-like token the
    backend may have produced. -/
structure JsonFields where
  company : Option String
  position : Option String
  application_date : Option String
deriving DecidableEq

/-- The structured data `AIProvider` hands back for one extraction;
    `application_date` is a numeric timestamp in the model. -/
structure ExtractedData where
  company : Option String
  position : Option String
  application_date : Option Nat
deriving DecidableEq

/-- `AIProvider.parseExtractionResponse` on a located JSON object: clean the
    two entity fields and set `application_date: null` (the response's own
    date-like field is never read). -/
def parseExtractionResponseFields (d : JsonFields) : ExtractedData :=
  { company := cleanValue d.company
    position := cleanValue d.position
    application_date := none }

/-- One fetched email (`GmailClient.parseEmailData` output shape);
    `date` is `parseEmailDate`'s ISO timestamp, modelled numerically. -/
structure Email where
  messageId : String
  subject : String
  sender : String
  body : String
  date : Nat
deriving DecidableEq

/-- JavaScript string falsiness for a nullable field (`!data.company`). -/
def isFalsyStr : Option String → Bool
  | none => true
  | some s => s = ""

/-- Outcome of one `callAI` invocation for an extraction prompt: a thrown
    error message, or a response in which either no JSON object was found
    (`none`) or one was found with the given fields. -/
abbrev ExtractCallOutcome := Except String (Option JsonFields)

/-- `AIProvider.extractInformation`: parse the response (throwing
    `Failed to parse AI response` when no JSON object is located), always
    overwrite `application_date` with the email's own date, and throw
    `Could not extract company or position from email` when both entity
    fields are falsy. A thrown error is rethrown unchanged. -/
def providerExtract (email : Email) (call : ExtractCallOutcome) :
    Except String ExtractedData :=
  match call with
  | .error m => .error m
  | .ok none => .error "Failed to parse AI response"
  | .ok (some f) =>
    let d := parseExtractionResponseFields f
    let d := { d with application_date := some email.date }
    if isFalsyStr d.company && isFalsyStr d.position then
      .error "Could not extract company or position from email"
    else .ok d

/-! ## EmailProcessor (src/src/email-processor.js) -/

/-- `EmailProcessor.categorizeEmail`: call the provider; on a rate-limited
    failure retry exactly once (attempt 1) and return that call's outcome;
    any other failure is rethrown. -/
def epCategorizeEmail (a0 a1 : CallOutcome) : Except String Bool :=
  match providerCategorize a0 with
  | .ok b => .ok b
  | .error m => if rateLimitMsg m then providerCategorize a1 else .error m

/-- `EmailProcessor.extractInformation`: call the provider; on a rate-limited
    failure retry exactly once and propagate that call's failure; on any
    other failure return `null` (`.ok none`). -/
def epExtractInformation (email : Email) (a0 a1 : ExtractCallOutcome) :
    Except String (Option ExtractedData) :=
  match providerExtract email a0 with
  | .ok d => .ok (some d)
  | .error m =>
    if rateLimitMsg m then
      match providerExtract email a1 with
      | .ok d => .ok (some d)
      | .error m2 => .error m2
    else .ok none

/-- The AI backend as the email processor sees it: for each email and attempt
    index (0 = first call, 1 = the single retry), the outcome of that call. -/
structure Backend where
  classifyCall : Email → Nat → CallOutcome
  extractCall : Email → Nat → ExtractCallOutcome

/-- A persisted application record as built in `processEmails`. -/
structure Record where
  message_id : String
  company : Option String
  position : Option String
  email_title : String
  email_date : Nat
  processed_timestamp : Nat
deriving DecidableEq

/-- One entry of the per-item outcome log (`emailInfo` in the source). -/
structure EmailDetail where
  index : Nat
  subject : String
  sender : String
  date : Nat
  isConfirmation : Bool
  extracted : Option ExtractedData
  status : String
  errMsg : Option String
deriving DecidableEq

structure Stats where
  emailsScanned : Nat
  confirmationsFound : Nat
  successfulExtractions : Nat
  errors : Nat
deriving DecidableEq

/-- The per-email consequence of one iteration of the `processEmails` loop
    body (everything after the stop check), independent of loop position. -/
structure StepResult where
  isConfirmation : Bool
  extracted : Option ExtractedData
  status : String
  errMsg : Option String
  record : Option Record
  confirmDelta : Nat
  successDelta : Nat
  errorDelta : Nat
deriving DecidableEq

/-- The loop body of `EmailProcessor.processEmails` for one email:
    categorize (with single rate-limit retry); on a thrown error record an
    `Error: <msg>` outcome; on a negative classification record the skip
    outcome; otherwise extract, recording `Extraction failed` when the
    extraction layer returned `null`, an `Error: <msg>` outcome when it
    threw, and building the record on success. -/
def stepOutcome (B : Backend) (now : Nat) (e : Email) : StepResult :=
  match epCategorizeEmail (B.classifyCall e 0) (B.classifyCall e 1) with
  | .error m =>
    { isConfirmation := false, extracted := none, status := "Error: " ++ m
      errMsg := some m, record := none
      confirmDelta := 0, successDelta := 0, errorDelta := 1 }
  | .ok false =>
    { isConfirmation := false, extracted := none
      status := "Skipped - Not a job confirmation", errMsg := none
      record := none, confirmDelta := 0, successDelta := 0, errorDelta := 0 }
  | .ok true =>
    match epExtractInformation e (B.extractCall e 0) (B.extractCall e 1) with
    | .error m =>
      { isConfirmation := true, extracted := none, status := "Error: " ++ m
        errMsg := some m, record := none
        confirmDelta := 1, successDelta := 0, errorDelta := 1 }
    | .ok none =>
      { isConfirmation := true, extracted := none, status := "Extraction failed"
        errMsg := none, record := none
        confirmDelta := 1, successDelta := 0, errorDelta := 0 }
    | .ok (some d) =>
      { isConfirmation := true, extracted := some d
        status := "Successfully extracted", errMsg := none
        record := some { message_id := e.messageId, company := d.company
                         position := d.position, email_title := e.subject
                         email_date := e.date, processed_timestamp := now }
        confirmDelta := 1, successDelta := 1, errorDelta := 0 }

/-- Accumulated run state of `processEmails`: the records list, the
    `emailDetails` log, and `this.stats`. -/
structure ProcResult where
  records : List Record
  details : List EmailDetail
  stats : Stats
deriving DecidableEq

def mkDetail (e : Email) (i : Nat) (r : StepResult) : EmailDetail :=
  { index := i + 1, subject := e.subject, sender := e.sender, date := e.date
    isConfirmation := r.isConfirmation, extracted := r.extracted
    status := r.status, errMsg := r.errMsg }

def applyStep (B : Backend) (now : Nat) (st : ProcResult) (e : Email) (i : Nat) :
    ProcResult :=
  let r := stepOutcome B now e
  { records := st.records ++ r.record.toList
    details := st.details ++ [mkDetail e i r]
    stats := { emailsScanned := st.stats.emailsScanned + 1
               confirmationsFound := st.stats.confirmationsFound + r.confirmDelta
               successfulExtractions := st.stats.successfulExtractions + r.successDelta
               errors := st.stats.errors + r.errorDelta } }

/-- The `for` loop of `processEmails`: before each item the stop callback is
    checked (`stop i` is its value at the check preceding item `i`); a `true`
    check breaks the loop. -/
def processGo (B : Backend) (now : Nat) (stop : Nat → Bool) :
    List Email → Nat → ProcResult → ProcResult
  | [], _, st => st
  | e :: rest, i, st =>
    if stop i then st
    else processGo B now stop rest (i + 1) (applyStep B now st e i)

/-- `EmailProcessor.processEmails` over a batch. -/
def processEmails (B : Backend) (now : Nat) (stop : Nat → Bool)
    (emails : List Email) : ProcResult :=
  processGo B now stop emails 0 { records := [], details := [], stats := ⟨0, 0, 0, 0⟩ }

/-! ## ScannedTracker (scanned-tracker.js) and CSVManager.addRecords -/

/-- JavaScript `new Set(list)` materialised back to an array: duplicates are
    dropped, first occurrence kept, insertion order preserved. -/
def dedupKeepFirst (ids : List String) : List String :=
  ids.foldl (fun acc id => if acc.contains id then acc else acc ++ [id]) []

/-- Adding a batch of ids to a `Set` built from `base` and converting back to
    an array (`Array.from(scannedIds)`). -/
def setAddAll (base add : List String) : List String :=
  add.foldl (fun acc id => if acc.contains id then acc else acc ++ [id]) base

/-- `ScannedTracker.markAsScanned`: read the stored ids into a `Set`, add the
    new ids, store the set back as an array. -/
def markAsScanned (stored newIds : List String) : List String :=
  setAddAll (dedupKeepFirst stored) newIds

/-- Result shape of `CSVManager.addRecords`. -/
structure AddResult (ρ : Type) where
  records : List ρ
  total : Nat
  added : Nat
  duplicatesSkipped : Nat
deriving DecidableEq

/-- `CSVManager.addRecords`: filter the incoming batch against the ids
    already present in the table, append the survivors. Polymorphic in the
    record type (the source is duck-typed on `message_id`). -/
def addRecords (mid : ρ → String) (existingRecords newRecords : List ρ) :
    AddResult ρ :=
  let existingIds := existingRecords.map mid
  let uniqueNewRecords := newRecords.filter (fun r => !(existingIds.contains (mid r)))
  let allRecords := existingRecords ++ uniqueNewRecords
  { records := allRecords
    total := allRecords.length
    added := uniqueNewRecords.length
    duplicatesSkipped := newRecords.length - uniqueNewRecords.length }

/-! ## Background service worker (src/background.js) -/

/-- The persistent store as background.js uses it: the scanned-ids array,
    the stored record table, and the checkpoint timestamp. -/
structure BgStore where
  scannedEmailIds : List String
  csvRecords : List Record
  lastCheckpoint : Option Nat
deriving DecidableEq

/-- The `results` object a run responds with. -/
structure RunResults where
  emailsScanned : Nat
  confirmationsFound : Nat
  newRecordsCount : Nat
  duplicatesSkipped : Nat
  errors : Nat
  emailDetails : List EmailDetail
deriving DecidableEq

/-- Response of `handleProcessEmails` on its non-throwing path. -/
inductive RunResponse
  | ok (stopped : Bool) (results : RunResults)
deriving DecidableEq

/-- `emails.reduce((latest, email) => new Date(email.date) > new Date(latest.date)
    ? email : latest)`. -/
def latestEmail (first : Email) (rest : List Email) : Email :=
  rest.foldl (fun latest e => if e.date > latest.date then e else latest) first

/-- `handleProcessEmails` (background.js), from the point where the fetch has
    returned: filter out already-scanned emails and truncate to the requested
    limit, run the processor, mark the attempted ids as scanned, dedup the
    produced records against the stored table, append the new ones, and
    update the checkpoint — the checkpoint update sits inside the
    `newRecords.length > 0` branch. Authentication and the fetch itself are
    modelled by the `fetched` parameter (a successful fetch result). -/
def handleProcessEmails (B : Backend) (now : Nat) (stop : Nat → Bool)
    (requestedLimit : Nat) (fetched : List Email) (st : BgStore) :
    BgStore × RunResponse :=
  let scannedIds := dedupKeepFirst st.scannedEmailIds
  if fetched.isEmpty then
    (st, .ok false { emailsScanned := 0, confirmationsFound := 0
                     newRecordsCount := 0, duplicatesSkipped := 0, errors := 0
                     emailDetails := [] })
  else
    let notScanned := fetched.filter (fun e => !(scannedIds.contains e.messageId))
    let unscannedEmails := notScanned.take requestedLimit
    let alreadyScanned := fetched.length - notScanned.length
    if unscannedEmails.isEmpty then
      (st, .ok false { emailsScanned := 0, confirmationsFound := 0
                       newRecordsCount := 0, duplicatesSkipped := alreadyScanned
                       errors := 0, emailDetails := [] })
    else
      let pr := processEmails B now stop unscannedEmails
      let stopped := stop unscannedEmails.length
      let processedIds :=
        ((List.range pr.details.length).map
          (fun idx => (((unscannedEmails.get? idx).map (fun e => e.messageId)).getD ""))).filter
          (fun id => id ≠ "")
      let st1 :=
        if processedIds.isEmpty then st
        else { st with scannedEmailIds := markAsScanned st.scannedEmailIds processedIds }
      let existingIds := st1.csvRecords.map (fun r => r.message_id)
      let newRecords := pr.records.filter (fun r => !(existingIds.contains r.message_id))
      let csvDuplicates := pr.records.length - newRecords.length
      if newRecords.isEmpty then
        (st1, .ok stopped { emailsScanned := pr.stats.emailsScanned
                            confirmationsFound := pr.stats.confirmationsFound
                            newRecordsCount := 0
                            duplicatesSkipped := alreadyScanned + csvDuplicates
                            errors := pr.stats.errors, emailDetails := pr.details })
      else
        let saveResult := addRecords (fun r => r.message_id) st1.csvRecords newRecords
        let st2 := { st1 with csvRecords := saveResult.records }
        let st3 :=
          if fetched.isEmpty then st2
          else { st2 with
                 lastCheckpoint := some (match fetched with
                   | [] => 0
                   | e :: rest => (latestEmail e rest).date) }
        (st3, .ok stopped { emailsScanned := pr.stats.emailsScanned
                            confirmationsFound := pr.stats.confirmationsFound
                            newRecordsCount := newRecords.length
                            duplicatesSkipped := alreadyScanned + csvDuplicates
                            errors := pr.stats.errors, emailDetails := pr.details })

/-- The two ambient flags of background.js. -/
structure BgFlags where
  isProcessing : Bool
  shouldStopProcessing : Bool
deriving DecidableEq

structure BgState where
  flags : BgFlags
  store : BgStore
deriving DecidableEq

/-- Messages the background listener dispatches on (those relevant to run
    control; `fetched` carries what the Gmail fetch inside the run returns). -/
inductive Msg
  | processEmailsMsg (requestedLimit : Nat) (fetched : List Email)
  | stopProcessing
  | checkProcessingState

inductive MsgResponse
  | run (r : RunResponse)
  | simpleSuccess
  | processingState (isProcessing : Bool)
deriving DecidableEq

/-- The `chrome.runtime.onMessage` listener of background.js. A
    `processEmails` message unconditionally enters `handleProcessEmails`,
    which sets `isProcessing = true` and resets `shouldStopProcessing` on
    entry, never consults the incoming `isProcessing` value, and clears
    `isProcessing` in its `finally` block; stop requests arriving during the
    run are the `stop` schedule. -/
def onMessage (B : Backend) (now : Nat) (stop : Nat → Bool) (msg : Msg)
    (s : BgState) : BgState × MsgResponse :=
  match msg with
  | .stopProcessing =>
    ({ s with flags := { s.flags with shouldStopProcessing := true } }, .simpleSuccess)
  | .checkProcessingState => (s, .processingState s.flags.isProcessing)
  | .processEmailsMsg lim fetched =>
    let out := handleProcessEmails B now stop lim fetched s.store
    ({ flags := { isProcessing := false, shouldStopProcessing := false }
       store := out.1 }, .run out.2)

/-! ## CSVManager (csv-manager.js): export and parse

`new Date(isoTimestamp)` followed by the `getMonth`/`getDate`/... accessors is
modelled for a UTC runtime: an ISO-8601 UTC string
(`YYYY-MM-DDTHH:MM:SS[.mmm]Z`, which is what both stored timestamp fields
carry) parses to its components; any other string behaves as an invalid date,
whose accessors are `NaN`. -/

structure DateParts where
  year : Nat
  month : Nat
  day : Nat
  hour : Nat
  minute : Nat
  second : Nat
deriving DecidableEq

def twoDigits (a b : Char) : Nat := (a.toNat - 48) * 10 + (b.toNat - 48)

def isoTailOk : List Char → Bool
  | ['Z'] => true
  | ['.', a, b, c, 'Z'] => a.isDigit && b.isDigit && c.isDigit
  | _ => false

def parseISOChars : List Char → Option DateParts
  | y1 :: y2 :: y3 :: y4 :: '-' :: mo1 :: mo2 :: '-' :: d1 :: d2 :: 'T' ::
      h1 :: h2 :: ':' :: mi1 :: mi2 :: ':' :: s1 :: s2 :: rest =>
    if isoTailOk rest &&
        [y1, y2, y3, y4, mo1, mo2, d1, d2, h1, h2, mi1, mi2, s1, s2].all Char.isDigit then
      let dp : DateParts :=
        { year := twoDigits y1 y2 * 100 + twoDigits y3 y4
          month := twoDigits mo1 mo2, day := twoDigits d1 d2
          hour := twoDigits h1 h2, minute := twoDigits mi1 mi2
          second := twoDigits s1 s2 }
      if 1 ≤ dp.month && dp.month ≤ 12 && 1 ≤ dp.day && dp.day ≤ 31 &&
          dp.hour ≤ 23 && dp.minute ≤ 59 && dp.second ≤ 59 then
        some dp
      else none
    else none
  | _ => none

/-- JavaScript `String(n).padStart(2, '0')` for a number. -/
def pad2 (n : Nat) : String := if n < 10 then "0" ++ toString n else toString n

/-- `CSVManager.formatTimestamp`: empty in, empty out; otherwise the
    `MM-DD-YYYY HH:MM:SS` display form, with the `NaN` rendering a JavaScript
    runtime produces for an invalid date. -/
def formatTimestamp (isoTimestamp : String) : String :=
  if isoTimestamp = "" then ""
  else
    match parseISOChars isoTimestamp.data with
    | some d =>
      pad2 d.month ++ "-" ++ pad2 d.day ++ "-" ++ toString d.year ++ " " ++
        pad2 d.hour ++ ":" ++ pad2 d.minute ++ ":" ++ pad2 d.second
    | none => "NaN-NaN-NaN NaN:NaN:NaN"

/-- A row of the stored table, all six columns as text (a `null` field of a
    pipeline record reads back as `''` through `record[header] || ''`). -/
structure CsvRecord where
  email_date : String
  company : String
  position : String
  email_title : String
  processed_timestamp : String
  message_id : String
deriving DecidableEq

def needsQuoteC (v : List Char) : Bool :=
  v.contains ',' || v.contains '"' || v.contains '\n'

/-- `value.replace(/"/g, '""')`. -/
def doubleQuotes : List Char → List Char
  | [] => []
  | c :: t => if c = '"' then '"' :: '"' :: doubleQuotes t else c :: doubleQuotes t

/-- Quote-and-escape step of `recordToCSVLine`. -/
def escapeFieldC (v : List Char) : List Char :=
  if needsQuoteC v then '"' :: (doubleQuotes v ++ ['"']) else v

/-- `value = record[header] || ''`, reformatted when the header is one of the
    two timestamp columns and the value is truthy. -/
def fmtIfTs (v : String) : String := if v = "" then v else formatTimestamp v

/-- The six column values of a record in header order, after the timestamp
    reformatting of `recordToCSVLine`. -/
def recordFields (r : CsvRecord) : List String :=
  [fmtIfTs r.email_date, r.company, r.position, r.email_title,
   fmtIfTs r.processed_timestamp, r.message_id]

def joinCommaC : List (List Char) → List Char
  | [] => []
  | [v] => v
  | v :: vs => v ++ ',' :: joinCommaC vs

def recordToCSVLineC (r : CsvRecord) : List Char :=
  joinCommaC ((recordFields r).map (fun s => escapeFieldC s.data))

/-- `CSVManager.recordToCSVLine`. -/
def recordToCSVLine (r : CsvRecord) : String := ⟨recordToCSVLineC r⟩

/-- The character state machine of `CSVManager.parseCSVLine`, following the
    source's if-chain: an escaped quote `""` inside quotes appends one quote
    and skips the lookahead character; a bare quote toggles `inQuotes`; an
    unquoted comma ends the value; anything else is appended; the final
    value is pushed when the characters run out. On the final character the
    lookahead (`line[i + 1]`) is undefined, so the escaped-quote branch
    cannot fire. -/
def parseCSVLineAux : List Char → Bool → List Char → List (List Char) → List (List Char)
  | [], _, cur, acc => acc ++ [cur]
  | [c], inQ, cur, acc =>
    if c = '"' then parseCSVLineAux [] (!inQ) cur acc
    else if c = ',' ∧ inQ = false then parseCSVLineAux [] false [] (acc ++ [cur])
    else parseCSVLineAux [] inQ (cur ++ [c]) acc
  | c :: d :: rest, inQ, cur, acc =>
    if c = '"' ∧ inQ = true ∧ d = '"' then
      parseCSVLineAux rest inQ (cur ++ ['"']) acc
    else if c = '"' then
      parseCSVLineAux (d :: rest) (!inQ) cur acc
    else if c = ',' ∧ inQ = false then
      parseCSVLineAux (d :: rest) false [] (acc ++ [cur])
    else
      parseCSVLineAux (d :: rest) inQ (cur ++ [c]) acc

def parseCSVLineChars (l : List Char) : List (List Char) :=
  parseCSVLineAux l false [] []

/-- `CSVManager.parseCSVLine`. -/
def parseCSVLine (line : String) : List String :=
  (parseCSVLineChars line.data).map (fun v => ⟨v⟩)

/-- JavaScript `content.split('\n')` over characters. -/
def splitNlC : List Char → List (List Char)
  | [] => [[]]
  | c :: rest =>
    if c = '\n' then [] :: splitNlC rest
    else
      match splitNlC rest with
      | [] => [[c]]
      | x :: xs => (c :: x) :: xs

/-- One iteration of the `parseCSV` line loop: skip a line that trims to
    nothing, parse it, and build a record only when exactly
    `headers.length` values came back. -/
def parseLineRecord? (l : List Char) : Option CsvRecord :=
  if jsTrimC l = [] then none
  else
    match parseCSVLineChars l with
    | [a, b, c, d, e, f] => some ⟨⟨a⟩, ⟨b⟩, ⟨c⟩, ⟨d⟩, ⟨e⟩, ⟨f⟩⟩
    | _ => none

/-- `CSVManager.parseCSV`: empty-content guard, split into lines, skip the
    header row, parse the remaining lines. -/
def parseCSV (content : String) : List CsvRecord :=
  if jsTrimC content.data = [] then []
  else if (splitNlC (jsTrimC content.data)).length ≤ 1 then []
  else ((splitNlC (jsTrimC content.data)).drop 1).filterMap parseLineRecord?

def csvHeaderC : List Char :=
  "email_date,company,position,email_title,processed_timestamp,message_id".data

/-- The CSV text `CSVManager.exportAsDownload` builds: BOM, header row, one
    line per record, each line newline-terminated. -/
def exportContentC (records : List CsvRecord) : List Char :=
  '\uFEFF' :: csvHeaderC ++ '\n' :: records.flatMap (fun r => recordToCSVLineC r ++ ['\n'])

def exportContent (records : List CsvRecord) : String := ⟨exportContentC records⟩

/-- What a record looks like after the export-time timestamp reformatting. -/
def displayRecord (r : CsvRecord) : CsvRecord :=
  { r with email_date := fmtIfTs r.email_date
           processed_timestamp := fmtIfTs r.processed_timestamp }

def RunResponse.results : RunResponse → RunResults
  | .ok _ r => r

/-- The maximum `receivedAt` over a fetched batch (the quantity the claim
says the watermark is advanced to; 0 for an empty batch). -/
def specBatchMaxReceivedAt : List Email → Nat
  | [] => 0
  | e :: rest => rest.foldl (fun a x => max a x.date) e.date

/-- A sequence of `addRecords` calls folded over the table, also summing the
    per-call `added` counts. -/
def appendBatchesGo (mid : ρ → String) (batches : List (List ρ)) (acc : List ρ × Nat) :
    List ρ × Nat :=
  batches.foldl
    (fun acc b =>
      let res := addRecords mid acc.1 b
      (res.records, acc.2 + res.added))
    acc

def appendBatches (mid : ρ → String) (batches : List (List ρ)) : List ρ × Nat :=
  appendBatchesGo mid batches ([], 0)

/-- The two concrete batches used by the C3 witness: distinct ids within
each call, a repeated id across the calls. -/
def c3WitnessBatches : List (List Record) :=
  [[{ message_id := "x", company := some "A", position := none
      email_title := "t1", email_date := 1, processed_timestamp := 2 },
    { message_id := "y", company := some "B", position := none
      email_title := "t2", email_date := 3, processed_timestamp := 4 }],
   [{ message_id := "x", company := some "C", position := none
      email_title := "t3", email_date := 5, processed_timestamp := 6 },
    { message_id := "z", company := some "D", position := none
      email_title := "t4", email_date := 7, processed_timestamp := 8 }]]

/-- The filtered-and-truncated batch the handler iterates over (the
`unscannedEmails` step of `handleProcessEmails`, written out). -/
def unscannedOf (lim : Nat) (fetched : List Email) (st : BgStore) : List Email :=
  (fetched.filter
    (fun e => !((dedupKeepFirst st.scannedEmailIds).contains e.messageId))).take lim

/-- The ids the handler marks as scanned (the `processedIds` step of
`handleProcessEmails`, written out). -/
def processedIdsOf (B : Backend) (now : Nat) (stop : Nat → Bool) (lim : Nat)
    (fetched : List Email) (st : BgStore) : List String :=
  ((List.range (processEmails B now stop (unscannedOf lim fetched st)).details.length).map
    (fun idx =>
      ((((unscannedOf lim fetched st).get? idx).map (fun e => e.messageId)).getD ""))).filter
    (fun id => id ≠ "")

/-- Concrete inputs for the C1 witness. -/
def c1WitnessBackend : Backend :=
  { classifyCall := fun _ _ => .ok "no", extractCall := fun _ _ => .ok none }

def c1WitnessFetched : List Email :=
  [{ messageId := "m1", subject := "s1", sender := "f1", body := "b1", date := 1 },
   { messageId := "m2", subject := "s2", sender := "f2", body := "b2", date := 2 }]

def c1WitnessStore : BgStore :=
  { scannedEmailIds := [], csvRecords := [], lastCheckpoint := none }

/-- Newline-joined lines (the trimmed body of the export). -/
def joinNlC : List (List Char) → List Char
  | [] => []
  | [v] => v
  | v :: vs => v ++ '\n' :: joinNlC vs

/-- The concrete stored record for the C9 counterexample and witness: ISO
machine timestamps and a comma inside the position field. -/
def c9Rec : CsvRecord :=
  { email_date := "2025-01-02T03:04:05.000Z", company := "Acme"
    position := "Engineer, Backend", email_title := "Offer"
    processed_timestamp := "2025-01-02T03:04:06.000Z", message_id := "m1" }

/-! ## Claim C10 — classification answer parsing -/

/-- Claim C10: for every classification backend response string `r`,
classification is positive exactly when the lowercased, trimmed `r` contains
the substring `yes`, or equals `true`, or equals `1`; in particular a
response containing `yes` anywhere — in any casing, even inside a negative
sentence — classifies the item as a confirmation (through the full
categorize path, including the orchestrator wrapper). -/
theorem C10_classification_characterization :
    (∀ r : String, classifyAnswerTrue r = true ↔
      (strHasSub "yes" (jsTrim (jsToLower r)) = true ∨
       jsTrim (jsToLower r) = "true" ∨ jsTrim (jsToLower r) = "1")) ∧
    (∀ (r : String) (a1 : CallOutcome),
      strHasSub "yes" (jsTrim (jsToLower r)) = true →
      epCategorizeEmail (.ok r) a1 = .ok true) := by
  constructor
  · intro r
    simp only [classifyAnswerTrue, Bool.or_eq_true, decide_eq_true_eq]
    tauto
  · intro r a1 h
    simp [epCategorizeEmail, providerCategorize, classifyAnswerTrue, h]

/-- Witness for C10 at a concrete negative-sentence response. -/
theorem C10_witness :
    strHasSub "yes" (jsTrim (jsToLower "No — although it says YES, it is a rejection.")) = true ∧
    epCategorizeEmail (.ok "No — although it says YES, it is a rejection.") (.ok "no") = .ok true :=
  ⟨by decide,
   C10_classification_characterization.2 "No — although it says YES, it is a rejection."
     (.ok "no") (by decide)⟩

/-! ## Claim C7 — null-token normalization -/

/-- Counterexample to claim C7: the claim says a field holding the textual
words for null/none in ANY casing is normalized to an absent value, but
`cleanValue` compares against exactly `null`, `NULL` and `None`, so the
casings `Null` and `none` are kept as strings. -/
theorem C7_counterexample :
    parseExtractionResponseFields
        { company := some "Null", position := some "none", application_date := none } =
      { company := some "Null", position := some "none", application_date := none } ∧
    (some "Null" ≠ (none : Option String)) ∧ (some "none" ≠ (none : Option String)) := by
  decide

/-- Claim C7 as amended: a field is normalized to an absent value exactly
when it is JSON-null, the empty string, or one of the literal tokens
`null`, `NULL`, `None`; any other string value — including other casings of
the null words — is kept (trimmed), never normalized away. -/
theorem C7_amended (d : JsonFields) :
    ((parseExtractionResponseFields d).company = none ↔
      (d.company = none ∨ d.company = some "" ∨ d.company = some "null" ∨
       d.company = some "NULL" ∨ d.company = some "None")) ∧
    ((parseExtractionResponseFields d).position = none ↔
      (d.position = none ∨ d.position = some "" ∨ d.position = some "null" ∨
       d.position = some "NULL" ∨ d.position = some "None")) ∧
    (∀ s : String, s ≠ "" → s ≠ "null" → s ≠ "NULL" → s ≠ "None" →
      cleanValue (some s) = some (jsTrim s)) := by
  refine ⟨?_, ?_, ?_⟩
  · cases h : d.company with
    | none => simp [parseExtractionResponseFields, cleanValue, h]
    | some s =>
      simp only [parseExtractionResponseFields, cleanValue]
      by_cases h1 : s = "" <;> by_cases h2 : s = "null" <;> by_cases h3 : s = "NULL" <;>
        by_cases h4 : s = "None" <;> simp_all
  · cases h : d.position with
    | none => simp [parseExtractionResponseFields, cleanValue, h]
    | some s =>
      simp only [parseExtractionResponseFields, cleanValue]
      by_cases h1 : s = "" <;> by_cases h2 : s = "null" <;> by_cases h3 : s = "NULL" <;>
        by_cases h4 : s = "None" <;> simp_all
  · intro s h1 h2 h3 h4
    simp [cleanValue, h1, h2, h3, h4]

/-- Witness for C7 amended at the concrete casing `Null`. -/
theorem C7_amended_witness :
    ((parseExtractionResponseFields
        { company := some "Null", position := none, application_date := none }).company = none ↔
      (some "Null" = (none : Option String) ∨ some "Null" = some "" ∨ some "Null" = some "null" ∨
       some "Null" = some "NULL" ∨ some "Null" = some "None")) ∧
    ("Null" ≠ "") ∧ cleanValue (some "Null") = some (jsTrim "Null") :=
  ⟨(C7_amended { company := some "Null", position := none, application_date := none }).1,
   by decide,
   (C7_amended { company := some "Null", position := none, application_date := none }).2.2
     "Null" (by decide) (by decide) (by decide) (by decide)⟩

/-! ## Claim C6 — single retry on rate-limited failures -/

/-- Claim C6: when a classify (or extract) call fails and the caught message
is rate-limit-typed, the orchestrator retries the call exactly once — the
final outcome is exactly the second call's outcome, so a failing retry
propagates its failure and no further retry happens at this layer; a
non-rate-limited failure is propagated for classify and turned into the
null result for extract without any retry. -/
theorem C6_single_retry :
    (∀ (m : String) (a1 : CallOutcome),
      rateLimitMsg ("Failed to categorize email: " ++ m) = true →
      epCategorizeEmail (.error m) a1 = providerCategorize a1) ∧
    (∀ (m : String) (a1 : CallOutcome),
      rateLimitMsg ("Failed to categorize email: " ++ m) = false →
      epCategorizeEmail (.error m) a1 = .error ("Failed to categorize email: " ++ m)) ∧
    (∀ (e : Email) (m : String) (a1 : ExtractCallOutcome),
      rateLimitMsg m = true →
      epExtractInformation e (.error m) a1 = (providerExtract e a1).map some) ∧
    (∀ (e : Email) (m : String) (a1 : ExtractCallOutcome),
      rateLimitMsg m = false →
      epExtractInformation e (.error m) a1 = .ok none) := by
  refine ⟨?_, ?_, ?_, ?_⟩
  · intro m a1 h
    simp [epCategorizeEmail, providerCategorize, h]
  · intro m a1 h
    simp [epCategorizeEmail, providerCategorize, h]
  · intro e m a1 h
    have h0 : providerExtract e (.error m) = .error m := rfl
    simp only [epExtractInformation, h0, h, if_true]
    cases hp : providerExtract e a1 <;> simp [Except.map]
  · intro e m a1 h
    have h0 : providerExtract e (.error m) = .error m := rfl
    simp only [epExtractInformation, h0, h]
    simp

/-- Witness for C6 at concrete rate-limited and other failures. -/
theorem C6_witness :
    (rateLimitMsg ("Failed to categorize email: " ++ "rate limit exceeded") = true ∧
      epCategorizeEmail (.error "rate limit exceeded") (.error "rate limit exceeded") =
        providerCategorize (.error "rate limit exceeded")) ∧
    (rateLimitMsg "boom" = false ∧
      epExtractInformation { messageId := "m", subject := "s", sender := "f", body := "b", date := 3 }
        (.error "boom") (.error "boom") = .ok none) :=
  ⟨⟨by decide, C6_single_retry.1 "rate limit exceeded" (.error "rate limit exceeded") (by decide)⟩,
   ⟨by decide, C6_single_retry.2.2.2
      { messageId := "m", subject := "s", sender := "f", body := "b", date := 3 }
      "boom" (.error "boom") (by decide)⟩⟩

/-! ## Claim C8 — timestamp override -/

/-- Claim C8: for every successfully extracted item the record's date field
equals the source email's received timestamp, at both layers: the provider
always overwrites `application_date` with the email's own date (whatever
date-like token the response carried), and the record built by the
processor takes `email_date` directly from the email. -/
theorem C8_timestamp_override :
    (∀ (e : Email) (call : ExtractCallOutcome) (d : ExtractedData),
      providerExtract e call = .ok d → d.application_date = some e.date) ∧
    (∀ (B : Backend) (now : Nat) (e : Email) (r : Record),
      (stepOutcome B now e).record = some r → r.email_date = e.date) := by
  constructor
  · intro e call d h
    cases call with
    | error m => exact absurd h (by simp [providerExtract])
    | ok o =>
      cases o with
      | none => exact absurd h (by simp [providerExtract])
      | some f =>
        simp only [providerExtract] at h
        split at h
        · exact absurd h (by simp)
        · cases h
          rfl
  · intro B now e r h
    simp only [stepOutcome] at h
    split at h
    · exact absurd h (by simp)
    · exact absurd h (by simp)
    · split at h
      · exact absurd h (by simp)
      · exact absurd h (by simp)
      · cases h
        rfl

/-- Witness for C8 at a concrete email and extraction response that carries
its own date-like token. -/
theorem C8_witness :
    (providerExtract { messageId := "m8", subject := "s8", sender := "f8", body := "b8", date := 42 }
        (.ok (some { company := some "Acme", position := none, application_date := some "1999-09-09" })) =
      .ok { company := some "Acme", position := none, application_date := some 42 }) ∧
    ({ company := some "Acme", position := none, application_date := some 42 } :
      ExtractedData).application_date = some 42 :=
  ⟨rfl,
   C8_timestamp_override.1
     { messageId := "m8", subject := "s8", sender := "f8", body := "b8", date := 42 }
     (.ok (some { company := some "Acme", position := none, application_date := some "1999-09-09" }))
     { company := some "Acme", position := none, application_date := some 42 }
     rfl⟩

/-! ## Claim C2 — single active run -/

/-- Counterexample to claim C2: a `processEmails` request arriving while
`isProcessing` is already `true` is not rejected — the handler runs a full
second pipeline (one email scanned, the store mutated) instead of returning
an already-running outcome. -/
theorem C2_counterexample :
    (({ flags := { isProcessing := true, shouldStopProcessing := false }
        store := { scannedEmailIds := [], csvRecords := [], lastCheckpoint := none } } :
        BgState).flags.isProcessing = true) ∧
    (onMessage
        { classifyCall := fun _ _ => .ok "no", extractCall := fun _ _ => .ok none }
        0 (fun _ => false)
        (.processEmailsMsg 10 [{ messageId := "id2", subject := "s", sender := "f", body := "b", date := 7 }])
        { flags := { isProcessing := true, shouldStopProcessing := false }
          store := { scannedEmailIds := [], csvRecords := [], lastCheckpoint := none } }).2 =
      .run (.ok false
        { emailsScanned := 1, confirmationsFound := 0, newRecordsCount := 0
          duplicatesSkipped := 0, errors := 0
          emailDetails := [{ index := 1, subject := "s", sender := "f", date := 7
                             isConfirmation := false, extracted := none
                             status := "Skipped - Not a job confirmation", errMsg := none }] }) ∧
    (onMessage
        { classifyCall := fun _ _ => .ok "no", extractCall := fun _ _ => .ok none }
        0 (fun _ => false)
        (.processEmailsMsg 10 [{ messageId := "id2", subject := "s", sender := "f", body := "b", date := 7 }])
        { flags := { isProcessing := true, shouldStopProcessing := false }
          store := { scannedEmailIds := [], csvRecords := [], lastCheckpoint := none } }).1.store.scannedEmailIds =
      ["id2"] := by
  refine ⟨rfl, ?_, ?_⟩ <;> decide

/-- Claim C2 as amended: the active-run state is queryable as a boolean flag
(`checkProcessingState` answers with `isProcessing`), but a `processEmails`
request issued while another run is active is NOT rejected: the handler
never consults the incoming `isProcessing` value, so its response and store
effects are identical whatever the flags were — a second run simply starts. -/
theorem C2_amended :
    (∀ (B : Backend) (now : Nat) (stop : Nat → Bool) (s : BgState),
      onMessage B now stop .checkProcessingState s = (s, .processingState s.flags.isProcessing)) ∧
    (∀ (B : Backend) (now : Nat) (stop : Nat → Bool) (lim : Nat) (fetched : List Email)
       (flagsA flagsB : BgFlags) (store : BgStore),
      onMessage B now stop (.processEmailsMsg lim fetched) { flags := flagsA, store := store } =
        onMessage B now stop (.processEmailsMsg lim fetched) { flags := flagsB, store := store }) := by
  constructor
  · intro B now stop s
    rfl
  · intro B now stop lim fetched flagsA flagsB store
    rfl

/-! ## Run decomposition lemmas for the uncancelled loop -/

theorem processGo_never_statuses (B : Backend) (now : Nat) :
    ∀ (l : List Email) (i : Nat) (st : ProcResult),
      (processGo B now (fun _ => false) l i st).details.map (fun d => d.status) =
        st.details.map (fun d => d.status) ++
          l.map (fun e => (stepOutcome B now e).status) := by
  intro l
  induction l with
  | nil => intro i st; simp [processGo]
  | cons e rest ih =>
    intro i st
    show (processGo B now (fun _ => false) rest (i + 1) (applyStep B now st e i)).details.map
        (fun d => d.status) = _
    rw [ih]
    simp [applyStep, mkDetail]

theorem processGo_never_records (B : Backend) (now : Nat) :
    ∀ (l : List Email) (i : Nat) (st : ProcResult),
      (processGo B now (fun _ => false) l i st).records =
        st.records ++ l.flatMap (fun e => (stepOutcome B now e).record.toList) := by
  intro l
  induction l with
  | nil => intro i st; simp [processGo]
  | cons e rest ih =>
    intro i st
    show (processGo B now (fun _ => false) rest (i + 1) (applyStep B now st e i)).records = _
    rw [ih]
    simp [applyStep]

theorem processEmails_statuses (B : Backend) (now : Nat) (l : List Email) :
    (processEmails B now (fun _ => false) l).details.map (fun d => d.status) =
      l.map (fun e => (stepOutcome B now e).status) := by
  simpa using processGo_never_statuses B now l 0 _

theorem processEmails_records (B : Backend) (now : Nat) (l : List Email) :
    (processEmails B now (fun _ => false) l).records =
      l.flatMap (fun e => (stepOutcome B now e).record.toList) := by
  simpa using processGo_never_records B now l 0 _

/-! ## Claim C5 — extraction failure is item-scoped -/

/-- Counterexample to claim C5: an item that passes classification and whose
extraction fails with a rate-limited failure on both the call and its retry
records the outcome `Error: <msg>`, not `extraction failed`. -/
theorem C5_counterexample :
    ((processEmails
        { classifyCall := fun _ _ => .ok "yes"
          extractCall := fun _ _ => .error "rate limit reached" }
        0 (fun _ => false)
        [{ messageId := "id5", subject := "s5", sender := "f5", body := "b5", date := 10 }]).details.map
        (fun d => d.isConfirmation) = [true]) ∧
    ((processEmails
        { classifyCall := fun _ _ => .ok "yes"
          extractCall := fun _ _ => .error "rate limit reached" }
        0 (fun _ => false)
        [{ messageId := "id5", subject := "s5", sender := "f5", body := "b5", date := 10 }]).details.map
        (fun d => d.status) = ["Error: rate limit reached"]) ∧
    ("Error: rate limit reached" ≠ "Extraction failed") := by
  refine ⟨by decide, by decide, by decide⟩

/-- Claim C5 as amended: for an item that passes classification, an
extraction failure surfaced by the extraction layer as a null result — which
covers the insufficient-fields case and every other non-rate-limited thrown
error — records the outcome `Extraction failed`; a rate-limited failure
whose single retry also fails records the outcome `Error: <msg>`. In either
case no record is produced for the item and the run continues with the
remaining items (their statuses and records are exactly those of processing
the rest alone); the run never aborts. -/
theorem C5_amended (B : Backend) (now : Nat) (e : Email) (rest : List Email)
    (hc : epCategorizeEmail (B.classifyCall e 0) (B.classifyCall e 1) = .ok true) :
    (epExtractInformation e (B.extractCall e 0) (B.extractCall e 1) = .ok none →
      (processEmails B now (fun _ => false) (e :: rest)).details.map (fun d => d.status) =
        "Extraction failed" ::
          (processEmails B now (fun _ => false) rest).details.map (fun d => d.status) ∧
      (processEmails B now (fun _ => false) (e :: rest)).records =
        (processEmails B now (fun _ => false) rest).records) ∧
    (∀ m : String,
      epExtractInformation e (B.extractCall e 0) (B.extractCall e 1) = .error m →
      (processEmails B now (fun _ => false) (e :: rest)).details.map (fun d => d.status) =
        ("Error: " ++ m) ::
          (processEmails B now (fun _ => false) rest).details.map (fun d => d.status) ∧
      (processEmails B now (fun _ => false) (e :: rest)).records =
        (processEmails B now (fun _ => false) rest).records) := by
  constructor
  · intro hx
    have hstat : (stepOutcome B now e).status = "Extraction failed" := by
      simp only [stepOutcome, hc, hx]
    have hrec : (stepOutcome B now e).record = none := by
      simp only [stepOutcome, hc, hx]
    constructor
    · rw [processEmails_statuses, processEmails_statuses]
      simp [hstat]
    · rw [processEmails_records, processEmails_records]
      simp [hrec]
  · intro m hx
    have hstat : (stepOutcome B now e).status = "Error: " ++ m := by
      simp only [stepOutcome, hc, hx]
    have hrec : (stepOutcome B now e).record = none := by
      simp only [stepOutcome, hc, hx]
    constructor
    · rw [processEmails_statuses, processEmails_statuses]
      simp [hstat]
    · rw [processEmails_records, processEmails_records]
      simp [hrec]

/-- Witness for C5 amended at a concrete insufficient-fields extraction
(both entity fields falsy), with one further item processed after it. -/
theorem C5_witness :
    (epCategorizeEmail
        (({ classifyCall := fun _ _ => .ok "YES", extractCall := fun _ _ =>
              .ok (some { company := none, position := some "", application_date := some "2024-01-01" }) } :
            Backend).classifyCall
          { messageId := "a", subject := "sa", sender := "fa", body := "ba", date := 1 } 0)
        (({ classifyCall := fun _ _ => .ok "YES", extractCall := fun _ _ =>
              .ok (some { company := none, position := some "", application_date := some "2024-01-01" }) } :
            Backend).classifyCall
          { messageId := "a", subject := "sa", sender := "fa", body := "ba", date := 1 } 1) = .ok true) ∧
    ((processEmails
        { classifyCall := fun _ _ => .ok "YES", extractCall := fun _ _ =>
            .ok (some { company := none, position := some "", application_date := some "2024-01-01" }) }
        0 (fun _ => false)
        [{ messageId := "a", subject := "sa", sender := "fa", body := "ba", date := 1 },
         { messageId := "b", subject := "sb", sender := "fb", body := "bb", date := 2 }]).details.map
        (fun d => d.status) =
      "Extraction failed" ::
        (processEmails
          { classifyCall := fun _ _ => .ok "YES", extractCall := fun _ _ =>
              .ok (some { company := none, position := some "", application_date := some "2024-01-01" }) }
          0 (fun _ => false)
          [{ messageId := "b", subject := "sb", sender := "fb", body := "bb", date := 2 }]).details.map
          (fun d => d.status)) :=
  ⟨by decide,
   ((C5_amended
      { classifyCall := fun _ _ => .ok "YES", extractCall := fun _ _ =>
          .ok (some { company := none, position := some "", application_date := some "2024-01-01" }) }
      0
      { messageId := "a", subject := "sa", sender := "fa", body := "ba", date := 1 }
      [{ messageId := "b", subject := "sb", sender := "fb", body := "bb", date := 2 }]
      (by decide)).1 (by decide)).1⟩

/-! ## Claim C4 — watermark advancement -/

theorem latestEmail_date :
    ∀ (rest : List Email) (first : Email),
      (latestEmail first rest).date = rest.foldl (fun a x => max a x.date) first.date := by
  intro rest
  induction rest with
  | nil => intro first; rfl
  | cons e r ih =>
    intro first
    show (latestEmail (if e.date > first.date then e else first) r).date = _
    rw [ih]
    have hd : (if e.date > first.date then e else first).date = max first.date e.date := by
      split <;> omega
    rw [hd]
    rfl

/-- Counterexample to claim C4: a run whose fetch returned a non-empty batch
but which inserted no new record (here: the only email is classified as not
a confirmation) terminates without advancing the watermark at all — the
checkpoint stays `none` although the batch maximum `receivedAt` is 100. -/
theorem C4_counterexample :
    (([{ messageId := "id4", subject := "s4", sender := "f4", body := "b4", date := 100 }] :
        List Email) ≠ []) ∧
    ((handleProcessEmails
        { classifyCall := fun _ _ => .ok "no", extractCall := fun _ _ => .ok none }
        0 (fun _ => false) 10
        [{ messageId := "id4", subject := "s4", sender := "f4", body := "b4", date := 100 }]
        { scannedEmailIds := [], csvRecords := [], lastCheckpoint := none }).1.lastCheckpoint =
      none) ∧
    (specBatchMaxReceivedAt
        [{ messageId := "id4", subject := "s4", sender := "f4", body := "b4", date := 100 }] = 100) ∧
    ((none : Option Nat) ≠ some 100) := by
  refine ⟨by decide, by decide, by decide, by decide⟩

/-- Claim C4 as amended: the watermark is advanced only by a run that
actually inserts at least one new record; such a run sets the checkpoint to
the maximum `receivedAt` over the full fetched batch (including filtered-out
and never-attempted items), while every run that inserts no new record —
including runs whose fetch returned a non-empty batch — leaves the
checkpoint unchanged. -/
theorem C4_amended (B : Backend) (now : Nat) (stop : Nat → Bool) (lim : Nat)
    (fetched : List Email) (st : BgStore) :
    ((handleProcessEmails B now stop lim fetched st).2.results.newRecordsCount ≠ 0 →
      (handleProcessEmails B now stop lim fetched st).1.lastCheckpoint =
        some (specBatchMaxReceivedAt fetched)) ∧
    ((handleProcessEmails B now stop lim fetched st).2.results.newRecordsCount = 0 →
      (handleProcessEmails B now stop lim fetched st).1.lastCheckpoint = st.lastCheckpoint) := by
  simp only [handleProcessEmails]
  split
  · exact ⟨fun hn => absurd rfl hn, fun _ => rfl⟩
  · rename_i hfe
    split
    · exact ⟨fun hn => absurd rfl hn, fun _ => rfl⟩
    · split
      · split
        · exact ⟨fun hn => absurd rfl hn, fun _ => rfl⟩
        · rename_i hne
          refine ⟨fun _ => ?_, fun hn => ?_⟩
          · cases fetched with
            | nil => exact absurd rfl hfe
            | cons f r =>
              simp [latestEmail_date, specBatchMaxReceivedAt, RunResponse.results,
                List.isEmpty]
          · simp only [RunResponse.results] at hn
            exact absurd (List.isEmpty_iff.mpr (List.length_eq_zero.mp hn)) hne
      · split
        · exact ⟨fun hn => absurd rfl hn, fun _ => rfl⟩
        · rename_i hne
          refine ⟨fun _ => ?_, fun hn => ?_⟩
          · cases fetched with
            | nil => exact absurd rfl hfe
            | cons f r =>
              simp [latestEmail_date, specBatchMaxReceivedAt, RunResponse.results,
                List.isEmpty]
          · simp only [RunResponse.results] at hn
            exact absurd (List.isEmpty_iff.mpr (List.length_eq_zero.mp hn)) hne

/-- Witness for C4 amended: a run that inserts one record advances the
checkpoint to the batch maximum. -/
theorem C4_amended_witness :
    ((handleProcessEmails
        { classifyCall := fun _ _ => .ok "yes"
          extractCall := fun _ _ =>
            .ok (some { company := some "Acme", position := none, application_date := none }) }
        5 (fun _ => false) 10
        [{ messageId := "w4", subject := "s", sender := "f", body := "b", date := 100 },
         { messageId := "w5", subject := "s2", sender := "f2", body := "b2", date := 250 }]
        { scannedEmailIds := [], csvRecords := [], lastCheckpoint := none }).2.results.newRecordsCount ≠ 0) ∧
    ((handleProcessEmails
        { classifyCall := fun _ _ => .ok "yes"
          extractCall := fun _ _ =>
            .ok (some { company := some "Acme", position := none, application_date := none }) }
        5 (fun _ => false) 10
        [{ messageId := "w4", subject := "s", sender := "f", body := "b", date := 100 },
         { messageId := "w5", subject := "s2", sender := "f2", body := "b2", date := 250 }]
        { scannedEmailIds := [], csvRecords := [], lastCheckpoint := none }).1.lastCheckpoint =
      some (specBatchMaxReceivedAt
        [{ messageId := "w4", subject := "s", sender := "f", body := "b", date := 100 },
         { messageId := "w5", subject := "s2", sender := "f2", body := "b2", date := 250 }])) :=
  ⟨by decide,
   (C4_amended
      { classifyCall := fun _ _ => .ok "yes"
        extractCall := fun _ _ =>
          .ok (some { company := some "Acme", position := none, application_date := none }) }
      5 (fun _ => false) 10
      [{ messageId := "w4", subject := "s", sender := "f", body := "b", date := 100 },
       { messageId := "w5", subject := "s2", sender := "f2", body := "b2", date := 250 }]
      { scannedEmailIds := [], csvRecords := [], lastCheckpoint := none }).1 (by decide)⟩

/-! ## Claim C3 — Record Store dedup invariant -/

theorem contains_true_iff (l : List String) (x : String) :
    l.contains x = true ↔ x ∈ l := by
  simp [List.contains, List.elem_iff]

theorem addRecords_map_mid (mid : ρ → String) (t b : List ρ) :
    (addRecords mid t b).records.map mid =
      t.map mid ++ (b.map mid).filter (fun x => !((t.map mid).contains x)) := by
  simp only [addRecords, List.map_append]
  congr 1
  induction b with
  | nil => rfl
  | cons r rs ih =>
    simp only [List.filter_cons, List.map_cons]
    by_cases h : (t.map mid).contains (mid r) = true
    · rw [if_neg (by rw [h]; decide), if_neg (by rw [h]; decide)]
      exact ih
    · have hb2 : (t.map mid).contains (mid r) = false := by
        revert h
        cases (t.map mid).contains (mid r) <;> simp
      rw [if_pos (by rw [hb2]; rfl), if_pos (by rw [hb2]; rfl)]
      rw [List.map_cons, ih]

theorem addRecords_length (mid : ρ → String) (t b : List ρ) :
    (addRecords mid t b).records.length = t.length + (addRecords mid t b).added := by
  simp [addRecords]

theorem appendBatchesGo_inv (mid : ρ → String) :
    ∀ (batches : List (List ρ)) (t : List ρ) (s : Nat),
      (t.map mid).Nodup → (∀ b ∈ batches, (b.map mid).Nodup) →
      ((appendBatchesGo mid batches (t, s)).1.map mid).Nodup ∧
      ((appendBatchesGo mid batches (t, s)).1.map mid).toFinset =
        (t.map mid).toFinset ∪
          (batches.flatMap (fun b => b.map mid)).toFinset ∧
      (appendBatchesGo mid batches (t, s)).2 + t.length =
        s + (appendBatchesGo mid batches (t, s)).1.length := by
  intro batches
  induction batches with
  | nil =>
    intro t s ht _
    refine ⟨ht, by simp [appendBatchesGo], by simp [appendBatchesGo]⟩
  | cons b rest ih =>
    intro t s ht hb
    have hstep : appendBatchesGo mid (b :: rest) (t, s) =
        appendBatchesGo mid rest
          ((addRecords mid t b).records, s + (addRecords mid t b).added) := rfl
    have hb1 : (b.map mid).Nodup := hb b (List.mem_cons_self b rest)
    have hbr : ∀ x ∈ rest, (x.map mid).Nodup := fun x hx => hb x (List.mem_cons_of_mem b hx)
    have hmap := addRecords_map_mid mid t b
    have hnd : ((addRecords mid t b).records.map mid).Nodup := by
      rw [hmap]
      refine List.Nodup.append ht (hb1.filter _) ?_
      intro x hx1 hx2
      have hx2' : (!((t.map mid).contains x)) = true := (List.mem_filter.mp hx2).2
      rw [Bool.not_eq_true'] at hx2'
      have hx1' := (contains_true_iff (t.map mid) x).mpr hx1
      rw [hx2'] at hx1'
      exact Bool.false_ne_true hx1'
    obtain ⟨ih1, ih2, ih3⟩ := ih (addRecords mid t b).records (s + (addRecords mid t b).added) hnd hbr
    rw [hstep]
    refine ⟨ih1, ?_, ?_⟩
    · rw [ih2]
      have hfin : ((addRecords mid t b).records.map mid).toFinset =
          (t.map mid).toFinset ∪ (b.map mid).toFinset := by
        rw [hmap]
        ext x
        simp only [List.toFinset_append, Finset.mem_union, List.mem_toFinset,
          List.mem_filter, Bool.not_eq_true']
        constructor
        · rintro (h | ⟨h, _⟩)
          · exact Or.inl h
          · exact Or.inr h
        · rintro (h | h)
          · exact Or.inl h
          · by_cases hc : (t.map mid).contains x = true
            · exact Or.inl ((contains_true_iff _ _).mp hc)
            · exact Or.inr ⟨h, by simpa using hc⟩
      rw [hfin, List.flatMap_cons, List.toFinset_append, Finset.union_assoc]
    · have hlen := addRecords_length mid t b
      omega

/-- Counterexample to claim C3: a single `append` call whose batch contains
two candidate records with the same itemId inserts both — the resulting
table holds two records for one distinct id, and `added` is 2 while only
one distinct new id was seen. -/
theorem C3_counterexample :
    ((addRecords (fun r => r.message_id) ([] : List Record)
        [{ message_id := "dup", company := some "A", position := none
           email_title := "t1", email_date := 1, processed_timestamp := 2 },
         { message_id := "dup", company := some "B", position := none
           email_title := "t2", email_date := 3, processed_timestamp := 4 }]).records.map
        (fun r => r.message_id) = ["dup", "dup"]) ∧
    ((addRecords (fun r => r.message_id) ([] : List Record)
        [{ message_id := "dup", company := some "A", position := none
           email_title := "t1", email_date := 1, processed_timestamp := 2 },
         { message_id := "dup", company := some "B", position := none
           email_title := "t2", email_date := 3, processed_timestamp := 4 }]).added = 2) ∧
    ((["dup", "dup"] : List String).dedup.length = 1) ∧ (2 ≠ 1) := by
  refine ⟨by decide, by decide, by decide, by decide⟩

/-- Claim C3 as amended: `addRecords` deduplicates only against the current
table contents, not within the incoming batch; therefore, for every sequence
of `append` calls in which each call's batch carries pairwise-distinct
itemIds, the resulting table contains at most one record per distinct itemId
and the per-call `added` counts sum to the number of distinct ids seen
across all calls. -/
theorem C3_amended (batches : List (List Record))
    (hb : ∀ b ∈ batches, (b.map (fun r => r.message_id)).Nodup) :
    ((appendBatches (fun r => r.message_id) batches).1.map (fun r => r.message_id)).Nodup ∧
    (appendBatches (fun r => r.message_id) batches).2 =
      (batches.flatMap (fun b => b.map (fun r => r.message_id))).toFinset.card := by
  obtain ⟨h1, h2, h3⟩ :=
    appendBatchesGo_inv (fun r => r.message_id) batches [] 0 (by simp) hb
  refine ⟨h1, ?_⟩
  have hcard :
      ((appendBatches (fun r => r.message_id) batches).1.map (fun r => r.message_id)).toFinset.card =
        ((appendBatches (fun r => r.message_id) batches).1.map (fun r => r.message_id)).length :=
    List.toFinset_card_of_nodup h1
  have h2' :
      ((appendBatches (fun r => r.message_id) batches).1.map (fun r => r.message_id)).toFinset =
        (batches.flatMap (fun b => b.map (fun r => r.message_id))).toFinset := by
    simpa [appendBatches] using h2
  have hlen :
      ((appendBatches (fun r => r.message_id) batches).1.map (fun r => r.message_id)).length =
        (appendBatches (fun r => r.message_id) batches).1.length := List.length_map _ _
  have h3' : (appendBatches (fun r => r.message_id) batches).2 =
      (appendBatches (fun r => r.message_id) batches).1.length := by
    simpa [appendBatches] using h3
  rw [h3', ← hlen, ← hcard, h2']

/-- Witness for C3 amended on two concrete batches with an across-call
duplicate. -/
theorem C3_amended_witness :
    (∀ b ∈ c3WitnessBatches, (b.map (fun r => r.message_id)).Nodup) ∧
    ((appendBatches (fun r => r.message_id) c3WitnessBatches).1.map
        (fun r => r.message_id)).Nodup :=
  ⟨by decide, (C3_amended c3WitnessBatches (by decide)).1⟩

/-! ## Claim C1 — cancellation -/

theorem mem_setAddAll :
    ∀ (add base : List String) (x : String),
      x ∈ setAddAll base add ↔ x ∈ base ∨ x ∈ add := by
  intro add
  induction add with
  | nil => intro base x; simp [setAddAll]
  | cons a rest ih =>
    intro base x
    show x ∈ setAddAll (if base.contains a then base else base ++ [a]) rest ↔ _
    rw [ih]
    by_cases h : base.contains a = true
    · rw [if_pos h]
      have ha : a ∈ base := (contains_true_iff _ _).mp h
      constructor
      · rintro (hx | hx)
        · exact Or.inl hx
        · exact Or.inr (List.mem_cons_of_mem a hx)
      · rintro (hx | hx)
        · exact Or.inl hx
        · rcases List.mem_cons.mp hx with h1 | h1
          · exact Or.inl (h1 ▸ ha)
          · exact Or.inr h1
    · rw [if_neg h]
      simp only [List.mem_append, List.mem_singleton, List.mem_cons]
      tauto

theorem mem_dedupKeepFirst (l : List String) (x : String) :
    x ∈ dedupKeepFirst l ↔ x ∈ l := by
  show x ∈ setAddAll [] l ↔ x ∈ l
  rw [mem_setAddAll]
  simp

theorem mem_markAsScanned (stored newIds : List String) (x : String) :
    x ∈ markAsScanned stored newIds ↔ x ∈ stored ∨ x ∈ newIds := by
  unfold markAsScanned
  rw [mem_setAddAll, mem_dedupKeepFirst]

theorem processGo_stop_at (B : Backend) (now k : Nat) :
    ∀ (l : List Email) (i : Nat) (st : ProcResult),
      processGo B now (fun j => decide (k ≤ j)) l i st =
        processGo B now (fun _ => false) (l.take (k - i)) i st := by
  intro l
  induction l with
  | nil => intro i st; simp [processGo]
  | cons e rest ih =>
    intro i st
    by_cases hk : k ≤ i
    · have h0 : k - i = 0 := by omega
      rw [h0, List.take_zero]
      show processGo B now (fun j => decide (k ≤ j)) (e :: rest) i st = st
      simp [processGo, hk]
    · have h1 : k - i = (k - (i + 1)) + 1 := by omega
      rw [h1, List.take_succ_cons]
      show processGo B now (fun j => decide (k ≤ j)) (e :: rest) i st = _
      simp only [processGo]
      rw [if_neg (by simpa using hk), if_neg (by simp)]
      exact ih (i + 1) (applyStep B now st e i)

theorem processEmails_stop_at (B : Backend) (now k : Nat) (l : List Email) :
    processEmails B now (fun j => decide (k ≤ j)) l =
      processEmails B now (fun _ => false) (l.take k) := by
  unfold processEmails
  simpa using processGo_stop_at B now k l 0 _

theorem processGo_never_indices (B : Backend) (now : Nat) :
    ∀ (l : List Email) (i : Nat) (st : ProcResult),
      (processGo B now (fun _ => false) l i st).details.map (fun d => d.index) =
        st.details.map (fun d => d.index) ++ List.range' (i + 1) l.length := by
  intro l
  induction l with
  | nil => intro i st; simp [processGo]
  | cons e rest ih =>
    intro i st
    show (processGo B now (fun _ => false) rest (i + 1) (applyStep B now st e i)).details.map
        (fun d => d.index) = _
    rw [ih]
    simp [applyStep, mkDetail, List.range'_succ]

theorem processEmails_never_indices (B : Backend) (now : Nat) (l : List Email) :
    (processEmails B now (fun _ => false) l).details.map (fun d => d.index) =
      List.range' 1 l.length := by
  simpa using processGo_never_indices B now l 0 _

theorem processEmails_details_length (B : Backend) (now : Nat) (l : List Email) :
    (processEmails B now (fun _ => false) l).details.length = l.length := by
  have h := congrArg List.length (processEmails_never_indices B now l)
  simpa using h

theorem range_map_getD_messageId :
    ∀ (n : Nat) (l : List Email), n ≤ l.length →
      (List.range n).map (fun idx => (((l.get? idx).map (fun e => e.messageId)).getD "")) =
        (l.take n).map (fun e => e.messageId) := by
  intro n
  induction n with
  | zero => intro l h; simp
  | succ n ih =>
    intro l h
    have hn : n < l.length := by omega
    rw [List.range_succ, List.map_append, ih l (by omega)]
    have h1 : ((l[n]?).map (fun e => e.messageId)).getD "" = l[n].messageId := by
      rw [List.getElem?_eq_getElem hn]
      rfl
    have hn2 : n < (l.map (fun e => e.messageId)).length := by
      simpa using hn
    have h2 : (l.map (fun e => e.messageId)).take (n + 1) =
        (l.map (fun e => e.messageId)).take n ++ [l[n].messageId] := by
      rw [List.take_succ, List.getElem?_eq_getElem hn2]
      simp
    simp [h1, h2]

theorem mem_unscannedOf {lim : Nat} {fetched : List Email} {st : BgStore} {e : Email}
    (he : e ∈ unscannedOf lim fetched st) : e ∈ fetched :=
  List.mem_of_mem_filter (List.mem_of_mem_take he)

theorem unscannedOf_not_scanned {lim : Nat} {fetched : List Email} {st : BgStore} {e : Email}
    (he : e ∈ unscannedOf lim fetched st) : e.messageId ∉ st.scannedEmailIds := by
  have h1 := List.mem_of_mem_take he
  have h2 := List.of_mem_filter h1
  rw [Bool.not_eq_true'] at h2
  intro hmem
  have h3 : (dedupKeepFirst st.scannedEmailIds).contains e.messageId = true :=
    (contains_true_iff _ _).mpr ((mem_dedupKeepFirst _ _).mpr hmem)
  rw [h2] at h3
  exact Bool.false_ne_true h3

theorem unscannedOf_ids_nodup (lim : Nat) (fetched : List Email) (st : BgStore)
    (h : (fetched.map (fun e => e.messageId)).Nodup) :
    ((unscannedOf lim fetched st).map (fun e => e.messageId)).Nodup :=
  List.Nodup.sublist
    (List.Sublist.map _ ((List.take_sublist _ _).trans (List.filter_sublist _))) h

theorem take_map_mem {α : Type} (l : List α) (f : α → String) (k : Nat)
    (i : Fin l.length) (hik : (i : Nat) < k) : f (l.get i) ∈ (l.take k).map f := by
  rw [List.map_take]
  have hb : (i : Nat) < ((l.map f).take k).length := by
    simp only [List.length_take, List.length_map]
    omega
  have hg : ((l.map f).take k)[(i : Nat)] = f (l.get i) := by
    rw [List.getElem_take]
    rw [List.getElem_map]
    simp [List.get_eq_getElem]
  rw [← hg]
  exact List.getElem_mem _

theorem take_map_not_mem {α : Type} (l : List α) (f : α → String)
    (hnd : (l.map f).Nodup) (k : Nat) (i : Fin l.length) (hk : k ≤ (i : Nat)) :
    f (l.get i) ∉ (l.take k).map f := by
  intro hmem
  rw [List.map_take] at hmem
  have hsplit : ((l.map f).take k ++ (l.map f).drop k).Nodup := by
    rw [List.take_append_drop]
    exact hnd
  have hdisj := (List.nodup_append.mp hsplit).2.2
  have hb : (i : Nat) - k < ((l.map f).drop k).length := by
    simp only [List.length_drop, List.length_map]
    have := i.isLt
    omega
  have hg : ((l.map f).drop k)[(i : Nat) - k] = f (l.get i) := by
    rw [List.getElem_drop]
    have hik : k + ((i : Nat) - k) = (i : Nat) := by omega
    simp only [hik, List.getElem_map]
    simp [List.get_eq_getElem]
  have hmem2 : f (l.get i) ∈ (l.map f).drop k := by
    rw [← hg]
    exact List.getElem_mem _
  exact hdisj hmem hmem2

/-- Characterization of one handler run on its main path (some unscanned
emails survive the filter): the response log is the processor's detail log,
the scanned store grows by exactly the processed ids, and the record table
grows by exactly the records that dedup against the prior table. -/
theorem handleProcessEmails_main (B : Backend) (now : Nat) (stop : Nat → Bool) (lim : Nat)
    (fetched : List Email) (st : BgStore)
    (hue : (unscannedOf lim fetched st).isEmpty = false) :
    ((handleProcessEmails B now stop lim fetched st).2.results.emailDetails =
        (processEmails B now stop (unscannedOf lim fetched st)).details) ∧
    (∀ x : String,
      x ∈ (handleProcessEmails B now stop lim fetched st).1.scannedEmailIds ↔
        x ∈ st.scannedEmailIds ∨ x ∈ processedIdsOf B now stop lim fetched st) ∧
    ((handleProcessEmails B now stop lim fetched st).1.csvRecords =
      st.csvRecords ++
        (processEmails B now stop (unscannedOf lim fetched st)).records.filter
          (fun r => !((st.csvRecords.map (fun r2 => r2.message_id)).contains r.message_id))) := by
  have hfe : fetched.isEmpty = false := by
    cases fetched with
    | nil => simp [unscannedOf] at hue
    | cons f r => rfl
  have hue' := hue
  unfold unscannedOf at hue'
  simp only [handleProcessEmails]
  split
  · rename_i h
    rw [hfe] at h
    exact absurd h (by decide)
  · split
    · rename_i h
      rw [h] at hue'
      exact absurd hue' (by decide)
    · split
      · rename_i hpe
        split
        · rename_i hre
          refine ⟨rfl, ?_, ?_⟩
          · intro x
            have hp' : processedIdsOf B now stop lim fetched st = [] :=
              List.isEmpty_iff.mp hpe
            simp [hp']
          · have hre2 : (processEmails B now stop (unscannedOf lim fetched st)).records.filter
                (fun r => !((st.csvRecords.map (fun r2 => r2.message_id)).contains r.message_id)) =
                [] := List.isEmpty_iff.mp hre
            rw [hre2, List.append_nil]
        · refine ⟨rfl, ?_, ?_⟩
          · intro x
            have hp' : processedIdsOf B now stop lim fetched st = [] :=
              List.isEmpty_iff.mp hpe
            simp [hp']
          · simp [addRecords, unscannedOf]
      · split
        · rename_i hre
          refine ⟨rfl, ?_, ?_⟩
          · intro x
            exact mem_markAsScanned st.scannedEmailIds _ x
          · have hre2 : (processEmails B now stop (unscannedOf lim fetched st)).records.filter
                (fun r => !((st.csvRecords.map (fun r2 => r2.message_id)).contains r.message_id)) =
                [] := List.isEmpty_iff.mp hre
            rw [hre2, List.append_nil]
        · refine ⟨rfl, ?_, ?_⟩
          · intro x
            exact mem_markAsScanned st.scannedEmailIds _ x
          · simp [addRecords, unscannedOf]

/-- Claim C1: for a run over the filtered batch in which cancellation is
requested after item `k` completes (`k < n`, modelled by the stop check
turning true from index `k` on), the per-item outcome log holds exactly the
indices `1..k` and equals the log of processing only the first `k` items;
the ids of items `1..k` all enter the scanned set while items `k+1..n`
enter neither the log nor the scanned set; and the records accumulated for
items `1..k` are exactly what gets appended (after dedup) to the stored
table. -/
theorem C1_cancellation (B : Backend) (now k lim : Nat) (fetched : List Email) (st : BgStore)
    (hnodup : (fetched.map (fun e => e.messageId)).Nodup)
    (hne : ∀ e ∈ fetched, e.messageId ≠ "")
    (hk : k < (unscannedOf lim fetched st).length) :
    ((handleProcessEmails B now (fun j => decide (k ≤ j)) lim fetched st).2.results.emailDetails.map
        (fun d => d.index) = List.range' 1 k) ∧
    ((handleProcessEmails B now (fun j => decide (k ≤ j)) lim fetched st).2.results.emailDetails =
      (processEmails B now (fun _ => false) ((unscannedOf lim fetched st).take k)).details) ∧
    (∀ i : Fin (unscannedOf lim fetched st).length, (i : Nat) < k →
      ((unscannedOf lim fetched st).get i).messageId ∈
        (handleProcessEmails B now (fun j => decide (k ≤ j)) lim fetched st).1.scannedEmailIds) ∧
    (∀ i : Fin (unscannedOf lim fetched st).length, k ≤ (i : Nat) →
      ((unscannedOf lim fetched st).get i).messageId ∉
        (handleProcessEmails B now (fun j => decide (k ≤ j)) lim fetched st).1.scannedEmailIds) ∧
    ((handleProcessEmails B now (fun j => decide (k ≤ j)) lim fetched st).1.csvRecords =
      st.csvRecords ++
        (processEmails B now (fun _ => false) ((unscannedOf lim fetched st).take k)).records.filter
          (fun r => !((st.csvRecords.map (fun r2 => r2.message_id)).contains r.message_id))) := by
  have hue : (unscannedOf lim fetched st).isEmpty = false := by
    rw [List.isEmpty_eq_false]
    intro h0
    rw [h0] at hk
    simp at hk
  obtain ⟨hdet, hscan, hcsv⟩ :=
    handleProcessEmails_main B now (fun j => decide (k ≤ j)) lim fetched st hue
  have hstop := processEmails_stop_at B now k (unscannedOf lim fetched st)
  have hpids : processedIdsOf B now (fun j => decide (k ≤ j)) lim fetched st =
      ((unscannedOf lim fetched st).take k).map (fun e => e.messageId) := by
    unfold processedIdsOf
    rw [hstop, processEmails_details_length, List.length_take_of_le (Nat.le_of_lt hk),
      range_map_getD_messageId k _ (Nat.le_of_lt hk)]
    apply List.filter_eq_self.mpr
    intro x hx
    obtain ⟨e, he, rfl⟩ := List.mem_map.mp hx
    have hef : e ∈ fetched := mem_unscannedOf (List.mem_of_mem_take he)
    simpa using hne e hef
  have hnodupu := unscannedOf_ids_nodup lim fetched st hnodup
  refine ⟨?_, ?_, ?_, ?_, ?_⟩
  · rw [hdet, hstop, processEmails_never_indices, List.length_take_of_le (Nat.le_of_lt hk)]
  · rw [hdet, hstop]
  · intro i hik
    rw [hscan]
    right
    rw [hpids]
    exact take_map_mem _ _ k i hik
  · intro i hik hmem
    rcases (hscan _).mp hmem with h1 | h1
    · exact unscannedOf_not_scanned (List.get_mem _ _ _) h1
    · rw [hpids] at h1
      exact take_map_not_mem _ _ hnodupu k i hik h1
  · rw [hcsv, hstop]

/-- Witness for C1 at two fetched emails with cancellation after item 1. -/
theorem C1_witness :
    ((c1WitnessFetched.map (fun e => e.messageId)).Nodup ∧
      (∀ e ∈ c1WitnessFetched, e.messageId ≠ "") ∧
      1 < (unscannedOf 10 c1WitnessFetched c1WitnessStore).length) ∧
    ((handleProcessEmails c1WitnessBackend 0 (fun j => decide (1 ≤ j)) 10 c1WitnessFetched
        c1WitnessStore).2.results.emailDetails.map (fun d => d.index) = List.range' 1 1) :=
  ⟨⟨by decide, by decide, by decide⟩,
   (C1_cancellation c1WitnessBackend 0 1 10 c1WitnessFetched c1WitnessStore
      (by decide) (by decide) (by decide)).1⟩

/-! ## Claim C9 — CSV export/parse round trip

Line-level round-trip lemmas for the parse state machine. -/

theorem pcla_nil (inQ : Bool) (cur : List Char) (acc : List (List Char)) :
    parseCSVLineAux [] inQ cur acc = acc ++ [cur] := by
  rw [parseCSVLineAux]

theorem pcla_esc (rest : List Char) (cur : List Char) (acc : List (List Char)) :
    parseCSVLineAux ('"' :: '"' :: rest) true cur acc =
      parseCSVLineAux rest true (cur ++ ['"']) acc := by
  rw [parseCSVLineAux]
  rw [if_pos ⟨rfl, rfl, rfl⟩]

theorem pcla_quote_open (rest : List Char) (cur : List Char) (acc : List (List Char)) :
    parseCSVLineAux ('"' :: rest) false cur acc =
      parseCSVLineAux rest true cur acc := by
  cases rest with
  | nil =>
    rw [parseCSVLineAux]
    rw [parseCSVLineAux, if_pos rfl]
    rw [parseCSVLineAux]
  | cons d t =>
    rw [parseCSVLineAux]
    rw [if_neg (by rintro ⟨-, h, -⟩; cases h), if_pos rfl]
    rfl

theorem pcla_quote_close (rest : List Char) (cur : List Char) (acc : List (List Char))
    (h : rest.head? ≠ some '"') :
    parseCSVLineAux ('"' :: rest) true cur acc =
      parseCSVLineAux rest false cur acc := by
  cases rest with
  | nil =>
    rw [parseCSVLineAux]
    rw [parseCSVLineAux, if_pos rfl]
    rw [parseCSVLineAux]
  | cons d t =>
    have hd : ¬d = '"' := fun he => h (by rw [List.head?_cons, he])
    rw [parseCSVLineAux]
    rw [if_neg (by rintro ⟨-, -, h2⟩; exact hd h2), if_pos rfl]
    rfl

theorem pcla_comma (rest : List Char) (cur : List Char) (acc : List (List Char)) :
    parseCSVLineAux (',' :: rest) false cur acc =
      parseCSVLineAux rest false [] (acc ++ [cur]) := by
  cases rest with
  | nil =>
    rw [parseCSVLineAux]
    rw [parseCSVLineAux, if_neg (by decide), if_pos ⟨rfl, rfl⟩]
    rw [parseCSVLineAux]
  | cons d t =>
    rw [parseCSVLineAux]
    rw [if_neg (by rintro ⟨h, -, -⟩; cases h), if_neg (by decide),
      if_pos ⟨rfl, rfl⟩]

theorem pcla_other (c : Char) (rest : List Char) (inQ : Bool) (cur : List Char)
    (acc : List (List Char)) (hc : ¬c = '"') (hcm : ¬(c = ',' ∧ inQ = false)) :
    parseCSVLineAux (c :: rest) inQ cur acc =
      parseCSVLineAux rest inQ (cur ++ [c]) acc := by
  cases rest with
  | nil =>
    rw [parseCSVLineAux]
    rw [parseCSVLineAux, if_neg hc, if_neg hcm]
    rw [parseCSVLineAux]
  | cons d t =>
    rw [parseCSVLineAux]
    rw [if_neg (by rintro ⟨h, -, -⟩; exact hc h), if_neg hc, if_neg hcm]

theorem pcla_plain (v : List Char) (hv : ∀ c ∈ v, ¬c = '"' ∧ ¬c = ',') :
    ∀ (rest cur : List Char) (acc : List (List Char)),
      parseCSVLineAux (v ++ rest) false cur acc =
        parseCSVLineAux rest false (cur ++ v) acc := by
  induction v with
  | nil => intro rest cur acc; simp
  | cons c v ih =>
    intro rest cur acc
    have hc := hv c (List.mem_cons_self c v)
    rw [List.cons_append,
      pcla_other c (v ++ rest) false cur acc hc.1 (by rintro ⟨h, -⟩; exact hc.2 h)]
    rw [ih (fun x hx => hv x (List.mem_cons_of_mem c hx)) rest (cur ++ [c]) acc]
    simp

theorem doubleQuotes_append (a b : List Char) :
    doubleQuotes (a ++ b) = doubleQuotes a ++ doubleQuotes b := by
  induction a with
  | nil => rfl
  | cons c a ih =>
    by_cases h : c = '"' <;> simp [doubleQuotes, h, ih]

theorem pcla_quoted (v : List Char) :
    ∀ (rest cur : List Char) (acc : List (List Char)), rest.head? ≠ some '"' →
      parseCSVLineAux (doubleQuotes v ++ '"' :: rest) true cur acc =
        parseCSVLineAux rest false (cur ++ v) acc := by
  induction v with
  | nil =>
    intro rest cur acc h
    show parseCSVLineAux ('"' :: rest) true cur acc = _
    rw [pcla_quote_close rest cur acc h]
    simp
  | cons c v ih =>
    intro rest cur acc h
    by_cases hc : c = '"'
    · subst hc
      have hd : doubleQuotes ('"' :: v) = '"' :: '"' :: doubleQuotes v := by
        simp [doubleQuotes]
      rw [hd, List.cons_append, List.cons_append, pcla_esc, ih rest (cur ++ ['"']) acc h]
      simp
    · have hd : doubleQuotes (c :: v) = c :: doubleQuotes v := by
        simp [doubleQuotes, hc]
      rw [hd, List.cons_append,
        pcla_other c _ true cur acc hc (by rintro ⟨-, h2⟩; cases h2),
        ih rest (cur ++ [c]) acc h]
      simp

theorem not_contains_of_false {c : Char} {l : List Char}
    (h : l.contains c = false) : c ∉ l := by
  intro hm
  rw [List.contains_eq_any_beq] at h
  have : l.any (c == ·) = true := List.any_eq_true.mpr ⟨c, hm, by simp⟩
  rw [h] at this
  exact Bool.false_ne_true this

theorem pcla_field (v rest cur : List Char) (acc : List (List Char))
    (h : rest.head? ≠ some '"') :
    parseCSVLineAux (escapeFieldC v ++ rest) false cur acc =
      parseCSVLineAux rest false (cur ++ v) acc := by
  unfold escapeFieldC
  by_cases hq : needsQuoteC v = true
  · rw [if_pos hq]
    have hshape : ('"' :: (doubleQuotes v ++ ['"'])) ++ rest =
        '"' :: (doubleQuotes v ++ '"' :: rest) := by simp
    rw [hshape, pcla_quote_open, pcla_quoted v rest cur acc h]
  · rw [if_neg hq]
    apply pcla_plain
    intro c hc
    have h1 : v.contains ',' = false := by
      revert hq
      unfold needsQuoteC
      cases hcc : v.contains ',' <;> simp
    have h2 : v.contains '"' = false := by
      revert hq
      unfold needsQuoteC
      cases hcc : v.contains '"' <;> simp
    constructor
    · intro he
      exact not_contains_of_false h2 (he ▸ hc)
    · intro he
      exact not_contains_of_false h1 (he ▸ hc)

theorem pcla_line :
    ∀ (vs : List (List Char)) (acc : List (List Char)), vs ≠ [] →
      parseCSVLineAux (joinCommaC (vs.map escapeFieldC)) false [] acc = acc ++ vs := by
  intro vs
  induction vs with
  | nil => intro acc h; exact absurd rfl h
  | cons v vs ih =>
    intro acc _
    cases vs with
    | nil =>
      show parseCSVLineAux (joinCommaC [escapeFieldC v]) false [] acc = _
      show parseCSVLineAux (escapeFieldC v) false [] acc = _
      have := pcla_field v [] [] acc (by simp)
      rw [List.append_nil] at this
      rw [this, pcla_nil]
      simp
    | cons w ws =>
      show parseCSVLineAux
          (escapeFieldC v ++ ',' :: joinCommaC ((w :: ws).map escapeFieldC)) false [] acc = _
      rw [pcla_field v _ [] acc (by simp), pcla_comma]
      simp only [List.nil_append]
      rw [ih (acc ++ [v]) (by simp)]
      simp

/-! Record-level line round trip. -/

theorem comma_mem_joinComma (vs : List (List Char)) (h : 2 ≤ vs.length) :
    ',' ∈ joinCommaC vs := by
  cases vs with
  | nil => simp at h
  | cons v vs =>
    cases vs with
    | nil => simp at h
    | cons w ws =>
      show ',' ∈ v ++ ',' :: joinCommaC (w :: ws)
      simp

theorem mem_dropWhile_of_not_ws {c : Char} {l : List Char} (hc : c ∈ l)
    (hw : isJsWs c = false) : c ∈ l.dropWhile isJsWs := by
  rw [← List.takeWhile_append_dropWhile (p := isJsWs) (l := l)] at hc
  rcases List.mem_append.mp hc with h1 | h1
  · have := List.mem_takeWhile_imp h1
    rw [hw] at this
    exact absurd this (by decide)
  · exact h1

theorem jsTrimC_ne_nil {l : List Char} {c : Char} (hc : c ∈ l) (hw : isJsWs c = false) :
    jsTrimC l ≠ [] := by
  unfold jsTrimC trimRightC trimLeftC
  intro hnil
  have h1 : c ∈ l.dropWhile isJsWs := mem_dropWhile_of_not_ws hc hw
  have h2 : c ∈ (l.dropWhile isJsWs).reverse := List.mem_reverse.mpr h1
  have h3 : c ∈ (l.dropWhile isJsWs).reverse.dropWhile isJsWs :=
    mem_dropWhile_of_not_ws h2 hw
  rw [List.reverse_eq_nil_iff] at hnil
  rw [hnil] at h3
  exact absurd h3 (List.not_mem_nil c)

theorem parseCSVLineChars_record (r : CsvRecord) :
    parseCSVLineChars (recordToCSVLineC r) = (recordFields r).map String.data := by
  unfold parseCSVLineChars recordToCSVLineC
  rw [show ((recordFields r).map (fun s => escapeFieldC s.data)) =
      ((recordFields r).map String.data).map escapeFieldC from by rw [List.map_map]; rfl]
  rw [pcla_line _ [] (by simp [recordFields])]
  simp

theorem comma_mem_line (r : CsvRecord) : ',' ∈ recordToCSVLineC r := by
  unfold recordToCSVLineC
  exact comma_mem_joinComma _ (by simp [recordFields])

theorem parseLineRecord_record (r : CsvRecord) :
    parseLineRecord? (recordToCSVLineC r) = some (displayRecord r) := by
  unfold parseLineRecord?
  rw [if_neg (jsTrimC_ne_nil (comma_mem_line r) (by decide))]
  rw [parseCSVLineChars_record]
  rfl

/-! Content-level lemmas: trimming and newline splitting. -/

theorem splitNl_no_nl : ∀ (a : List Char), '\n' ∉ a → splitNlC a = [a] := by
  intro a
  induction a with
  | nil => intro _; rfl
  | cons c t ih =>
    intro h
    have hc : ¬c = '\n' := fun he => h (he ▸ List.mem_cons_self c t)
    show splitNlC (c :: t) = [c :: t]
    unfold splitNlC
    rw [if_neg hc, ih (fun hm => h (List.mem_cons_of_mem c hm))]

theorem splitNl_cons (c : Char) (rest : List Char) :
    splitNlC (c :: rest) =
      if c = '\n' then [] :: splitNlC rest
      else
        match splitNlC rest with
        | [] => [[c]]
        | x :: xs => (c :: x) :: xs := by
  rw [splitNlC]

theorem splitNl_append : ∀ (a rest : List Char), '\n' ∉ a →
    splitNlC (a ++ '\n' :: rest) = a :: splitNlC rest := by
  intro a
  induction a with
  | nil =>
    intro rest _
    show splitNlC ('\n' :: rest) = [] :: splitNlC rest
    rw [splitNl_cons, if_pos rfl]
  | cons c t ih =>
    intro rest h
    have hc : ¬c = '\n' := fun he => h (he ▸ List.mem_cons_self c t)
    show splitNlC (c :: (t ++ '\n' :: rest)) = (c :: t) :: splitNlC rest
    rw [splitNl_cons, if_neg hc, ih rest (fun hm => h (List.mem_cons_of_mem c hm))]

theorem splitNl_joinNl : ∀ (ls : List (List Char)), ls ≠ [] → (∀ l ∈ ls, '\n' ∉ l) →
    splitNlC (joinNlC ls) = ls := by
  intro ls
  induction ls with
  | nil => intro h _; exact absurd rfl h
  | cons a ls ih =>
    intro _ h2
    cases ls with
    | nil => exact splitNl_no_nl a (h2 a (List.mem_cons_self a []))
    | cons b bs =>
      show splitNlC (a ++ '\n' :: joinNlC (b :: bs)) = a :: (b :: bs)
      rw [splitNl_append _ _ (h2 a (List.mem_cons_self a _)),
        ih (by simp) (fun l hl => h2 l (List.mem_cons_of_mem a hl))]

theorem flatMap_lines : ∀ (ls : List (List Char)), ls ≠ [] →
    ls.flatMap (fun l => l ++ ['\n']) = joinNlC ls ++ ['\n'] := by
  intro ls
  induction ls with
  | nil => intro h; exact absurd rfl h
  | cons a ls ih =>
    intro _
    cases ls with
    | nil => simp [joinNlC]
    | cons b bs =>
      rw [List.flatMap_cons, ih (by simp)]
      show (a ++ ['\n']) ++ (joinNlC (b :: bs) ++ ['\n']) =
        (a ++ '\n' :: joinNlC (b :: bs)) ++ ['\n']
      simp

theorem trimRight_append_ws (l : List Char) (c : Char) (hc : isJsWs c = true) :
    trimRightC (l ++ [c]) = trimRightC l := by
  unfold trimRightC
  rw [List.reverse_append]
  simp [List.dropWhile_cons, hc]

theorem trimRight_of_last_not_ws (l : List Char) (c : Char) (hl : l.getLast? = some c)
    (hc : isJsWs c = false) : trimRightC l = l := by
  unfold trimRightC
  have hh : l.reverse.head? = some c := by rw [List.head?_reverse, hl]
  cases hr : l.reverse with
  | nil => rw [hr] at hh; cases hh
  | cons d t =>
    rw [hr] at hh
    have hd : d = c := by injection hh
    rw [List.dropWhile_cons, hd, hc, if_neg (by decide)]
    show (c :: t).reverse = l
    rw [hd] at hr
    rw [← hr, List.reverse_reverse]

theorem trimLeft_header (y : List Char) :
    trimLeftC ('\uFEFF' :: (csvHeaderC ++ y)) = csvHeaderC ++ y := by
  unfold trimLeftC
  rw [List.dropWhile_cons, if_pos (by decide)]
  have hh : csvHeaderC =
      'e' :: "mail_date,company,position,email_title,processed_timestamp,message_id".data :=
    rfl
  rw [hh, List.cons_append, List.dropWhile_cons, if_neg (by decide)]

theorem getLast_cons_general (a : Char) (X : List Char) :
    (a :: X).getLast? = if X.isEmpty then some a else X.getLast? := by
  cases X with
  | nil => rfl
  | cons b l => simp [List.getLast?_cons_cons]

theorem comma_chain_last (x y : List Char)
    (hy : ∀ c, y.getLast? = some c → isJsWs c = false) :
    ∀ c, (x ++ ',' :: y).getLast? = some c → isJsWs c = false := by
  intro c hc
  rw [List.getLast?_append_cons, getLast_cons_general] at hc
  by_cases hyE : y.isEmpty = true
  · rw [if_pos hyE] at hc
    have : ',' = c := by injection hc
    rw [← this]
    decide
  · rw [if_neg hyE] at hc
    exact hy c hc

theorem line_last_not_ws (r : CsvRecord)
    (h : ∀ c, (escapeFieldC r.message_id.data).getLast? = some c → isJsWs c = false) :
    ∀ c, (recordToCSVLineC r).getLast? = some c → isJsWs c = false := by
  have hline : recordToCSVLineC r =
      escapeFieldC (fmtIfTs r.email_date).data ++ ',' ::
        (escapeFieldC r.company.data ++ ',' ::
          (escapeFieldC r.position.data ++ ',' ::
            (escapeFieldC r.email_title.data ++ ',' ::
              (escapeFieldC (fmtIfTs r.processed_timestamp).data ++ ',' ::
                escapeFieldC r.message_id.data)))) := rfl
  rw [hline]
  exact comma_chain_last _ _ (comma_chain_last _ _ (comma_chain_last _ _
    (comma_chain_last _ _ (comma_chain_last _ _ h))))

theorem joinNl_ne_nil (ls : List (List Char)) (lastl : List Char) (h : lastl ≠ []) :
    joinNlC (ls ++ [lastl]) ≠ [] := by
  cases ls with
  | nil => exact h
  | cons a as =>
    have hv : as ++ [lastl] ≠ [] := by simp
    cases hvv : as ++ [lastl] with
    | nil => exact absurd hvv hv
    | cons w ws =>
      show joinNlC (a :: (as ++ [lastl])) ≠ []
      rw [hvv]
      show a ++ '\n' :: joinNlC (w :: ws) ≠ []
      simp

theorem joinNl_last_not_ws :
    ∀ (ls : List (List Char)) (lastl : List Char),
      (∀ c, lastl.getLast? = some c → isJsWs c = false) → lastl ≠ [] →
      ∀ c, (joinNlC (ls ++ [lastl])).getLast? = some c → isJsWs c = false := by
  intro ls
  induction ls with
  | nil => intro lastl h _ c hc; exact h c hc
  | cons a ls ih =>
    intro lastl h hne c hc
    have hj : joinNlC ((a :: ls) ++ [lastl]) = a ++ '\n' :: joinNlC (ls ++ [lastl]) := by
      cases hvv : ls ++ [lastl] with
      | nil => simp at hvv
      | cons w ws =>
        show joinNlC (a :: (ls ++ [lastl])) = _
        rw [hvv]
        rfl
    rw [hj] at hc
    rw [List.getLast?_append_cons, getLast_cons_general] at hc
    by_cases hE : (joinNlC (ls ++ [lastl])).isEmpty = true
    · exact absurd (List.isEmpty_iff.mp hE) (joinNl_ne_nil ls lastl hne)
    · rw [if_neg hE] at hc
      exact ih lastl h hne c hc

/-! No-newline propagation through escaping and joining. -/

theorem mem_doubleQuotes {c : Char} : ∀ {v : List Char}, c ∈ doubleQuotes v → c ∈ v ∨ c = '"' := by
  intro v
  induction v with
  | nil => intro h; exact absurd h (List.not_mem_nil c)
  | cons d t ih =>
    intro h
    by_cases hd : d = '"'
    · rw [show doubleQuotes (d :: t) = '"' :: '"' :: doubleQuotes t from by
          simp [doubleQuotes, hd]] at h
      rcases List.mem_cons.mp h with h1 | h1
      · exact Or.inr h1
      · rcases List.mem_cons.mp h1 with h2 | h2
        · exact Or.inr h2
        · rcases ih h2 with h3 | h3
          · exact Or.inl (List.mem_cons_of_mem d h3)
          · exact Or.inr h3
    · rw [show doubleQuotes (d :: t) = d :: doubleQuotes t from by
          simp [doubleQuotes, hd]] at h
      rcases List.mem_cons.mp h with h1 | h1
      · exact Or.inl (h1 ▸ List.mem_cons_self d t)
      · rcases ih h1 with h3 | h3
        · exact Or.inl (List.mem_cons_of_mem d h3)
        · exact Or.inr h3

theorem escapeField_no_nl {v : List Char} (h : '\n' ∉ v) : '\n' ∉ escapeFieldC v := by
  unfold escapeFieldC
  split
  · intro hm
    rcases List.mem_cons.mp hm with h1 | h1
    · cases h1
    · rcases List.mem_append.mp h1 with h2 | h2
      · rcases mem_doubleQuotes h2 with h3 | h3
        · exact h h3
        · cases h3
      · exact absurd (List.mem_singleton.mp h2) (by decide)
  · exact h

theorem joinComma_no_nl : ∀ {vs : List (List Char)}, (∀ v ∈ vs, '\n' ∉ v) →
    '\n' ∉ joinCommaC vs := by
  intro vs
  induction vs with
  | nil => intro _ hm; exact absurd hm (List.not_mem_nil _)
  | cons v vs ih =>
    intro h
    cases vs with
    | nil => exact h v (List.mem_cons_self v [])
    | cons w ws =>
      intro hm
      rcases List.mem_append.mp hm with h1 | h1
      · exact h v (List.mem_cons_self v _) h1
      · rcases List.mem_cons.mp h1 with h2 | h2
        · cases h2
        · exact ih (fun x hx => h x (List.mem_cons_of_mem v hx)) h2

theorem line_no_nl (r : CsvRecord) (h : ∀ f ∈ recordFields r, '\n' ∉ f.data) :
    '\n' ∉ recordToCSVLineC r := by
  unfold recordToCSVLineC
  apply joinComma_no_nl
  intro v hv
  obtain ⟨s, hs, rfl⟩ := List.mem_map.mp hv
  exact escapeField_no_nl (h s hs)

theorem line_ne_nil (r : CsvRecord) : recordToCSVLineC r ≠ [] :=
  List.ne_nil_of_mem (comma_mem_line r)

theorem filterMap_parse_lines (l : List CsvRecord) :
    (l.map recordToCSVLineC).filterMap parseLineRecord? = l.map displayRecord := by
  induction l with
  | nil => rfl
  | cons a t ih => simp [List.filterMap_cons, parseLineRecord_record, ih]

/-- Counterexample to claim C9: the export reformats the two timestamp
columns to the `MM-DD-YYYY HH:MM:SS` display form, so re-parsing the export
is NOT field-for-field equal to the original records — it returns the
display-form record instead (shown here on a record whose position contains
a comma, which itself survives the trip). -/
theorem C9_counterexample :
    (parseCSV (exportContent [c9Rec]) ≠ [c9Rec]) ∧
    (parseCSV (exportContent [c9Rec]) =
      [{ email_date := "01-02-2025 03:04:05", company := "Acme"
         position := "Engineer, Backend", email_title := "Offer"
         processed_timestamp := "01-02-2025 03:04:06", message_id := "m1" }]) := by
  refine ⟨by decide, by decide⟩

/-- Claim C9 as amended: exporting N records and re-parsing the export
yields N records in which the four text columns (company, position,
email_title, message_id — including a position containing a comma) are
field-for-field equal to the originals, while the two timestamp columns
come back in the `MM-DD-YYYY HH:MM:SS` display form produced at export
time, not in their stored machine form; this holds provided the exported
field values contain no newline and the final field does not end in
trim-able whitespace. -/
theorem C9_amended (records : List CsvRecord)
    (hn : ∀ r ∈ records, ∀ f ∈ recordFields r, '\n' ∉ f.data)
    (hlast : ∀ r, records.getLast? = some r →
      ∀ c, (escapeFieldC r.message_id.data).getLast? = some c → isJsWs c = false) :
    parseCSV (exportContent records) = records.map displayRecord := by
  cases records with
  | nil => decide
  | cons r0 rs =>
    have hlines_ne : (r0 :: rs).map recordToCSVLineC ≠ [] := by simp
    have hlines_nl : ∀ l ∈ (r0 :: rs).map recordToCSVLineC, '\n' ∉ l := by
      intro l hl
      obtain ⟨r, hr, rfl⟩ := List.mem_map.mp hl
      exact line_no_nl r (hn r hr)
    obtain ⟨rsInit, rlast, hsplit⟩ :
        ∃ (rsInit : List CsvRecord) (rlast : CsvRecord), r0 :: rs = rsInit ++ [rlast] := by
      rcases List.eq_nil_or_concat (r0 :: rs) with h | ⟨l2, a, h⟩
      · cases h
      · exact ⟨l2, a, by simpa [List.concat_eq_append] using h⟩
    have hmapsplit : (r0 :: rs).map recordToCSVLineC =
        rsInit.map recordToCSVLineC ++ [recordToCSVLineC rlast] := by
      rw [hsplit, List.map_append]
      rfl
    have hlastR : (r0 :: rs).getLast? = some rlast := by
      rw [hsplit]
      exact List.getLast?_concat _
    have hlast_line : ∀ c, (recordToCSVLineC rlast).getLast? = some c → isJsWs c = false :=
      line_last_not_ws rlast (hlast rlast hlastR)
    have hjoin_ne : joinNlC ((r0 :: rs).map recordToCSVLineC) ≠ [] := by
      rw [hmapsplit]
      exact joinNl_ne_nil _ _ (line_ne_nil rlast)
    have hjoin_last : ∀ c,
        (joinNlC ((r0 :: rs).map recordToCSVLineC)).getLast? = some c → isJsWs c = false := by
      rw [hmapsplit]
      exact joinNl_last_not_ws _ _ hlast_line (line_ne_nil rlast)
    have hflat : (r0 :: rs).flatMap (fun r => recordToCSVLineC r ++ ['\n']) =
        joinNlC ((r0 :: rs).map recordToCSVLineC) ++ ['\n'] := by
      rw [← flatMap_lines _ hlines_ne, List.flatMap_map]
    have htrim : jsTrimC (exportContentC (r0 :: rs)) =
        csvHeaderC ++ '\n' :: joinNlC ((r0 :: rs).map recordToCSVLineC) := by
      show trimRightC (trimLeftC _) = _
      have hexp : exportContentC (r0 :: rs) =
          '\uFEFF' :: (csvHeaderC ++ '\n' ::
            ((r0 :: rs).flatMap (fun r => recordToCSVLineC r ++ ['\n']))) := rfl
      rw [hexp, trimLeft_header, hflat]
      have hshape : csvHeaderC ++ '\n' :: (joinNlC ((r0 :: rs).map recordToCSVLineC) ++ ['\n']) =
          (csvHeaderC ++ '\n' :: joinNlC ((r0 :: rs).map recordToCSVLineC)) ++ ['\n'] := by
        simp
      rw [hshape, trimRight_append_ws _ '\n' (by decide)]
      cases hJl : (joinNlC ((r0 :: rs).map recordToCSVLineC)).getLast? with
      | none => exact absurd (List.getLast?_eq_none_iff.mp hJl) hjoin_ne
      | some c =>
        apply trimRight_of_last_not_ws _ c ?_ (hjoin_last c hJl)
        rw [List.getLast?_append_cons, getLast_cons_general,
          if_neg (fun hE => hjoin_ne (List.isEmpty_iff.mp hE)), hJl]
    have hdata : (exportContent (r0 :: rs)).data = exportContentC (r0 :: rs) := rfl
    unfold parseCSV
    rw [hdata, htrim]
    rw [if_neg (by simp)]
    rw [splitNl_append _ _ (by decide), splitNl_joinNl _ hlines_ne hlines_nl]
    rw [if_neg (by simp)]
    show (((r0 :: rs).map recordToCSVLineC).drop 0).filterMap parseLineRecord? = _
    rw [List.drop_zero]
    exact filterMap_parse_lines (r0 :: rs)

/-- Witness for C9 amended at one concrete record with a comma-bearing
position field. -/
theorem C9_amended_witness :
    ((∀ r ∈ [c9Rec], ∀ f ∈ recordFields r, '\n' ∉ f.data) ∧
      (∀ r : CsvRecord, ([c9Rec] : List CsvRecord).getLast? = some r →
        ∀ c, (escapeFieldC r.message_id.data).getLast? = some c → isJsWs c = false)) ∧
    parseCSV (exportContent [c9Rec]) = ([c9Rec] : List CsvRecord).map displayRecord :=
  ⟨⟨by decide, by decide⟩, C9_amended [c9Rec] (by decide) (by decide)⟩

end JobTracker
